import Mathlib

/-
Verification of the Modbus RTU code generator (make/modbus_rtu_rc.py).

This development shallowly embeds the matcher model, the operation
(callback) descriptor, the state-graph builder and the command-line
outcome of the generator, and settles the frozen claims about them.

Conventions of the embedding:
* Python classes u8/u16/u32/s8/s16/s32/f32/Crc/RuntimeDeviceAddress
  become the enumeration `MatcherClass`; a matcher's `value` attribute
  (None / int / list / Range / float) becomes `MValue`.
* Python dicts that the generator iterates in insertion order become
  association lists.
* Exceptions become an `Err` sum: `ParsingException` is the only caught
  exception; `valueError`, `attributeError`, `indexError` and `keyError`
  model the uncaught Python exceptions reachable in the translated code.
* The write-only `Matcher.pos` attribute (set in process_sequence, never
  read afterwards) is not carried by the embedding.
-/

namespace ModbusRC

/-- The nine concrete matcher classes of the source
(u8..f32, Crc, RuntimeDeviceAddress). -/
inductive MatcherClass where
  | u8 | u16 | u32 | s8 | s16 | s32 | f32 | crc | runtimeDeviceAddress
  deriving DecidableEq, Repr, Inhabited

namespace MatcherClass

/-- The `bits` class attribute (from _8bits/_16bits/_32bits). -/
def bits : MatcherClass → Nat
  | u8 => 8
  | u16 => 16
  | u32 => 32
  | s8 => 8
  | s16 => 16
  | s32 => 32
  | f32 => 32
  | crc => 16
  | runtimeDeviceAddress => 8

/-- `Integral.size`: the size in bytes, `bits // 8`. -/
def size (c : MatcherClass) : Nat := c.bits / 8

/-- Signed matcher classes (subclasses of SignedMatcher). -/
def isSigned : MatcherClass → Bool
  | s8 => true
  | s16 => true
  | s32 => true
  | _ => false

/-- Float matcher class. -/
def isFloat : MatcherClass → Bool
  | f32 => true
  | _ => false

/-- `UnsignedMatcher.min` / `SignedMatcher.min` of an instance of the class.
Only meaningful for non-float classes (a float instance has no min). -/
def minVal (c : MatcherClass) : Int :=
  if c.isSigned then -((2 : Int) ^ (c.bits - 1)) else 0

/-- `UnsignedMatcher.max` / `SignedMatcher.max` of an instance of the class. -/
def maxVal (c : MatcherClass) : Int :=
  if c.isSigned then (2 : Int) ^ (c.bits - 1) - 1 else (2 : Int) ^ c.bits - 1

/-- The `ctype` attribute used in emitted prototypes. -/
def ctype : MatcherClass → String
  | u8 => "uint8_t"
  | u16 => "uint16_t"
  | u32 => "uint32_t"
  | s8 => "uint8_t"
  | s16 => "uint16_t"
  | s32 => "uint32_t"
  | f32 => "uint32_t"
  | crc => "uint16_t"
  | runtimeDeviceAddress => "uint8_t"

end MatcherClass

/-- The `value` attribute of a matcher: None (wildcard), a single int
(exact), a list (one-of), a Range object (from/to), or a float literal. -/
inductive MValue where
  | wildcard
  | intVal (v : Int)
  | intList (vs : List Int)
  | range (lo hi : Int)
  | floatVal (q : Rat)
  deriving DecidableEq, Repr, Inhabited

/-- A matcher: class (width/signedness family), accepted-value shape, and
the optional alias used only to suggest state names. -/
structure Matcher where
  cls : MatcherClass
  value : MValue
  alia : Option String := none
  deriving DecidableEq, Repr, Inhabited

namespace Matcher

/-- `Matcher.__eq__`: equal classes, equal value types and equal values.
The alias does not participate in equality. -/
def structEq (a b : Matcher) : Bool :=
  a.cls == b.cls && a.value == b.value

/-- Byte size of the matched field. -/
def size (m : Matcher) : Nat := m.cls.size

/-- `Matcher.fits(item)`: the source constructs `v = item(0)` (which
raises ValueError for an f32 parameter, value `none` here), returns True
when the parameter is at least as wide, and otherwise checks the Range
bounds or every list element against the parameter instance's min/max.
Any other value shape (wildcard, exact, float) falls through to True. -/
def fits (m : Matcher) (p : MatcherClass) : Option Bool :=
  if p.isFloat then
    none
  else if m.size ≤ p.size then
    some true
  else
    match m.value with
    | .range lo hi => some (decide (p.minVal ≤ lo ∧ hi ≤ p.maxVal))
    | .intList vs => some (vs.all fun t => decide (p.minVal ≤ t ∧ t ≤ p.maxVal))
    | _ => some true

end Matcher

/-- Convenience constructors mirroring the source's matcher literals. -/
def u8x (v : Int) (a : Option String := none) : Matcher :=
  ⟨.u8, .intVal v, a⟩

def u8any (a : Option String := none) : Matcher :=
  ⟨.u8, .wildcard, a⟩

def u8range (lo hi : Int) (a : Option String := none) : Matcher :=
  ⟨.u8, .range lo hi, a⟩

def u8list (vs : List Int) (a : Option String := none) : Matcher :=
  ⟨.u8, .intList vs, a⟩

def u16any (a : Option String := none) : Matcher :=
  ⟨.u16, .wildcard, a⟩

def u16range (lo hi : Int) (a : Option String := none) : Matcher :=
  ⟨.u16, .range lo hi, a⟩

/-- `Crc(None)`: the CRC tail matcher. -/
def crcMatcher : Matcher := ⟨.crc, .wildcard, none⟩

/-- `RuntimeDeviceAddress(alias=...)`. -/
def rdaMatcher (a : Option String) : Matcher :=
  ⟨.runtimeDeviceAddress, .wildcard, a⟩

/-- One element of a command tuple: a matcher object or a string
(callback name). -/
inductive CmdItem where
  | matcher (m : Matcher)
  | name (s : String)
  deriving DecidableEq, Repr, Inhabited

/-- A command tuple is a plain sequence of such elements. -/
abbrev Cmd := List CmdItem

/-- The byte size of an item, counting only matchers
(`isinstance(item, Integral)` in the source). -/
def CmdItem.intSize : CmdItem → Nat
  | .matcher m => m.size
  | .name _ => 0

/-- `sum(item.size for item in cmd if isinstance(item, Integral))`. -/
def cmdIntSize (c : Cmd) : Nat := (c.map CmdItem.intSize).sum

/-- A callback parameter descriptor: a width/signedness tag, optionally
paired with a parameter name. -/
structure Param where
  cls : MatcherClass
  pname : Option String := none
  deriving DecidableEq, Repr, Inhabited

/-- Exceptions of the translated code. Only `parsing` (ParsingException)
is caught by the CLI; the others model uncaught Python exceptions. -/
inductive Err where
  | parsing (msg : String)
  | valueError
  | attributeError
  | indexError
  | keyError
  deriving DecidableEq, Repr

/-- The Operation descriptor: callback name, declared prototype, and the
capture chain (`[address_matcher] + list(cmd[:-1])`). -/
structure Operation where
  name : String
  prototype : List Param
  chain : List CmdItem
  deriving DecidableEq, Repr

/-- The width-specific decoder emitted for one callback argument.
The offset is an integer exactly as computed by the source (it is never
range-checked there). -/
inductive Decoder where
  | byteAt (o : Int)
  | ntoh (o : Int)
  | ntohl (o : Int)
  deriving DecidableEq, Repr

/-- Decoder selection by the parameter's byte width (`param_size == 1/2/4`
in `Operation.to_code`); any other width inserts nothing. -/
def mkDecoder (psize : Nat) (o : Int) : Option Decoder :=
  if psize = 1 then some (.byteAt o)
  else if psize = 2 then some (.ntoh o)
  else if psize = 4 then some (.ntohl o)
  else none

/-- Interior of `Operation.to_code`, processing the REVERSED prototype
against the REVERSED capture chain (`chain.pop()` pops from the end).
For each parameter: the offset starts as the summed sizes of the chain
items left after the pop, the popped item must `fits` the parameter,
and the matcher/parameter width difference is added to the offset.
Results are produced in processing order (reverse prototype order). -/
def opDecodersAux : List Param → List CmdItem → Except Err (List Decoder)
  | [], _ => .ok []
  | _ :: _, [] => .error .indexError
  | p :: ps, item :: chainRest =>
    match item with
    | .name _ => .error .attributeError
    | .matcher m =>
      match m.fits p.cls with
      | none => .error .valueError
      | some false =>
        .error (.parsing ("Cannot fit a matcher into a parameter of type "
          ++ p.cls.ctype))
      | some true =>
        match opDecodersAux ps chainRest with
        | .error e => .error e
        | .ok rest =>
          match mkDecoder p.cls.size
              ((cmdIntSize chainRest.reverse : Int)
                + (m.size : Int) - (p.cls.size : Int)) with
          | some d => .ok (d :: rest)
          | none => .ok rest

/-- `Operation.to_code`, reduced to the list of emitted argument decoders
(in prototype order). -/
def opDecoders (proto : List Param) (chain : List CmdItem) :
    Except Err (List Decoder) :=
  (opDecodersAux proto.reverse chain.reverse).map List.reverse

/-! ### String utilities of the embedding

Python string operations are modelled directly on the underlying
character lists. -/

/-- Python `str.startswith`. -/
def strStartsWith (s p : String) : Bool := p.data.isPrefixOf s.data

/-- ASCII upper-casing of one character (`str.upper` acts per character;
only letters change). -/
def upChar (c : Char) : Char :=
  match c with
  | 'a' => 'A' | 'b' => 'B' | 'c' => 'C' | 'd' => 'D' | 'e' => 'E'
  | 'f' => 'F' | 'g' => 'G' | 'h' => 'H' | 'i' => 'I' | 'j' => 'J'
  | 'k' => 'K' | 'l' => 'L' | 'm' => 'M' | 'n' => 'N' | 'o' => 'O'
  | 'p' => 'P' | 'q' => 'Q' | 'r' => 'R' | 's' => 'S' | 't' => 'T'
  | 'u' => 'U' | 'v' => 'V' | 'w' => 'W' | 'x' => 'X' | 'y' => 'Y'
  | 'z' => 'Z' | other => other

/-- Python `str.upper` (ASCII identifiers only appear here). -/
def pyUpper (s : String) : String := ⟨s.data.map upChar⟩

/-- Little-endian base-10 digits via a fuel-based recursion (the fuel `n`
always suffices since `n / 10 < n` for `n > 0`). -/
def natDigitsAux : Nat → Nat → List Nat
  | 0, _ => []
  | fuel + 1, n => if n = 0 then [] else n % 10 :: natDigitsAux fuel (n / 10)

/-- Little-endian base-10 digits of `n`. -/
def natToDigitsLE (n : Nat) : List Nat := natDigitsAux n n

/-- A decimal digit character. -/
def digitChar (d : Nat) : Char :=
  match d with
  | 0 => '0' | 1 => '1' | 2 => '2' | 3 => '3' | 4 => '4'
  | 5 => '5' | 6 => '6' | 7 => '7' | 8 => '8' | 9 => '9'
  | _ => '*'

/-- Python `str(n)` for a natural number. -/
def natStr (n : Nat) : String :=
  if n = 0 then "0" else ⟨(natToDigitsLE n).reverse.map digitChar⟩

/-- Characters of the character class `[a-zA-Z_]`. -/
def isAlphaU (c : Char) : Bool :=
  ('a' ≤ c && c ≤ 'z') || ('A' ≤ c && c ≤ 'Z') || c = '_'

/-- Characters of the character class `[a-zA-Z0-9_]`. -/
def isAlnumU (c : Char) : Bool := isAlphaU c || c.isDigit

/-- The anchored regex `^[a-zA-Z_][a-zA-Z0-9_]*$`
(VALID_C_FUNCTION_NAME). -/
def isValidCName (s : String) : Bool :=
  match s.data with
  | [] => false
  | c :: rest => isAlphaU c && rest.all isAlnumU

/-- The anchored regex `^device(@\d+)?$` used by the buffer-size loop. -/
def isDecDeviceKey (s : String) : Bool :=
  match s.data with
  | 'd' :: 'e' :: 'v' :: 'i' :: 'c' :: 'e' :: rest =>
    match rest with
    | [] => true
    | '@' :: ds => !ds.isEmpty && ds.all Char.isDigit
    | _ => false
  | _ => false

/-- The character class `[0-9a-fA-F]`. -/
def isHexDigit (c : Char) : Bool :=
  c.isDigit || ('a' ≤ c && c ≤ 'f') || ('A' ≤ c && c ≤ 'F')

/-- Attempt of the regex `device@((?:0x)?([0-9a-fA-F]+))` at the start of
the given character list, returning group 1.  The optional `0x` is
committed greedily and given back when no hex digit follows (regex
backtracking). -/
def matchDevAddrAt (cs : List Char) : Option (List Char) :=
  match cs with
  | 'd' :: 'e' :: 'v' :: 'i' :: 'c' :: 'e' :: '@' :: rest =>
    match rest with
    | '0' :: 'x' :: rest2 =>
      let run := rest2.takeWhile isHexDigit
      if run.isEmpty then
        -- backtracking: `[0-9a-fA-F]+` restarts at the '0' and stops at 'x'
        some ['0']
      else
        some ('0' :: 'x' :: run)
    | _ =>
      let run := rest.takeWhile isHexDigit
      if run.isEmpty then none else some run
  | _ => none

/-- `re.search(DEVICE_ADDR_RE, key)`: leftmost match of the pattern. -/
def searchDevAddr : List Char → Option (List Char)
  | [] => none
  | c :: rest =>
    match matchDevAddrAt (c :: rest) with
    | some grp => some grp
    | none => searchDevAddr rest

/-- Numeric value of a hex digit character. -/
def hexVal (c : Char) : Nat :=
  if c.isDigit then c.toNat - 48
  else if 'a' ≤ c && c ≤ 'f' then c.toNat - 87
  else if 'A' ≤ c && c ≤ 'F' then c.toNat - 55
  else 0

/-- Python `int(s, 0)` restricted to the strings group 1 can produce:
an explicit `0x`-prefixed hex literal, or a bare digit run which must be
decimal without a redundant leading zero (otherwise ValueError, `none`).
Bare runs containing hex letters are likewise a ValueError. -/
def parsePyIntBase0 (cs : List Char) : Option Nat :=
  match cs with
  | '0' :: 'x' :: rest =>
    if !rest.isEmpty && rest.all isHexDigit then
      some (rest.foldl (fun a c => a * 16 + hexVal c) 0)
    else none
  | _ =>
    if cs.all Char.isDigit then
      match cs with
      | [] => none
      | ['0'] => some 0
      | '0' :: _ :: _ => none
      | _ => some (cs.foldl (fun a c => a * 10 + (c.toNat - 48)) 0)
    else none

/-- First-match association-list lookup (Python `dict.__getitem__` /
`in`; keys are unique in every dict the generator builds). -/
def dictGet? {α β : Type} [DecidableEq α] (k : α) :
    List (α × β) → Option β
  | [] => none
  | (k', v) :: kvs => if k' = k then some v else dictGet? k kvs

/-- Association-list update with Python dict semantics: an existing key
keeps its position, a new key is appended. -/
def dictSet {α β : Type} [DecidableEq α] (k : α) (v : β) :
    List (α × β) → List (α × β)
  | [] => [(k, v)]
  | (k', v') :: kvs =>
    if k' = k then (k, v) :: kvs else (k', v') :: dictSet k v kvs

/-- In-place update of one list element (`self.states[i]` mutation via a
held object reference). Out-of-range indices leave the list unchanged. -/
def listModify {α : Type} (f : α → α) : List α → Nat → List α
  | [], _ => []
  | x :: xs, 0 => f x :: xs
  | x :: xs, n + 1 => x :: listModify f xs n

/-! ### MEI object codes and categories -/

def VENDOR_NAME : Nat := 0x00
def PRODUCT_CODE : Nat := 0x01
def MAJOR_MINOR_REVISION : Nat := 0x02
def VENDOR_URL : Nat := 0x03
def PRODUCT_NAME : Nat := 0x04
def MODEL_NAME : Nat := 0x05
def USER_APPLICATION_NAME : Nat := 0x06

def BASIC_DEVICE_IDENTIFICATION : Nat := 0x01
def REGULAR_DEVICE_IDENTIFICATION : Nat := 0x02
def EXTENDED_DEVICE_IDENTIFICATION : Nat := 0x03

/-- The MEI_OBJECT_CATEGORY table: category of each known object code
(`none` for a key not in the table). -/
def meiCategory (k : Nat) : Option Nat :=
  if k ≤ 0x02 then some BASIC_DEVICE_IDENTIFICATION
  else if k ≤ 0x06 then some REGULAR_DEVICE_IDENTIFICATION
  else if 0x80 ≤ k ∧ k ≤ 0x87 then some EXTENDED_DEVICE_IDENTIFICATION
  else none

/-! ### The state graph -/

/-- A transition: matcher, target state index, and the `set_crc` flag. -/
structure Transition where
  matcher : Matcher
  next : Nat
  setCrc : Bool
  deriving DecidableEq, Repr

/-- Plain states versus OperationState; for the latter, `none` models the
NoOperation sentinel. -/
inductive NodeKind where
  | plain
  | opState (op : Option Operation)
  deriving DecidableEq, Repr, Inhabited

/-- One state of the automaton.  `mode` is carried for emission only.
States are identified by their index in the generator's state list
(object identity in the source). -/
structure StateNode where
  name : String
  pos : Nat
  mode : String
  transition : List Transition
  kind : NodeKind
  deriving DecidableEq, Repr, Inhabited

/-- The CodeGenerator's mutable fields. -/
structure Gen where
  states : List StateNode
  callbacks : List (String × List Param)
  maxBufSize : Nat
  mode : String
  nspace : String
  slaveId : Nat
  identification : List (Nat × String)
  conformityLevel : Nat
  deviceAddress : Option Nat
  onReadyReply : Option String
  deriving DecidableEq, Repr

namespace Gen

/-- The state object at an index (always in range in the source). -/
def node (g : Gen) (sid : Nat) : StateNode := g.states.getD sid default

/-- `State.add`: append a transition to the state at `sid`. -/
def addTransition (g : Gen) (sid : Nat) (t : Transition) : Gen :=
  { g with
    states := listModify
      (fun s => { s with transition := s.transition ++ [t] }) g.states sid }

/-- `State.has` combined with `State.get_next_state_of`: the next state
of the first transition whose matcher compares equal, if any. -/
def nextOf? (g : Gen) (sid : Nat) (m : Matcher) : Option Nat :=
  ((g.node sid).transition.find? fun t => t.matcher.structEq m).map
    (fun t => t.next)

/-- `State.next`: suggested name of a successor state; a falsy alias
(absent or empty) is replaced by the 1-based transition count. -/
def nodeNextName (s : StateNode) (alia : Option String) : String :=
  let a := match alia with
    | some str => if str = "" then natStr (s.transition.length + 1) else str
    | none => natStr (s.transition.length + 1)
  s.name ++ "_" ++ a

/-- Names of already-created states that start with the suggested name
(the set the uniqueness loop of `new_state` tests against). -/
def filteredNames (g : Gen) (base : String) : List String :=
  (g.states.filter fun s => strStartsWith s.name base).map fun s => s.name

/-- Candidate `count` of the uniqueness loop: the suggested name itself,
then `base_1`, `base_2`, ... -/
def candName (base : String) (k : Nat) : String :=
  if k = 0 then base else base ++ "_" ++ natStr k

/-- The `while alt_name in names` loop of `new_state`, fuelled (the fuel
provided below is proved sufficient). -/
def freshFrom (names : List String) (base : String) : Nat → Nat → String
  | _, 0 => base
  | k, fuel + 1 =>
    if names.contains (candName base k) then
      freshFrom names base (k + 1) fuel
    else candName base k

/-- The unique name `new_state` settles on. -/
def freshName (g : Gen) (base : String) : String :=
  freshFrom (g.filteredNames base) base 0 ((g.filteredNames base).length + 1)

/-- `CodeGenerator.new_state`: append a fresh plain state with a unique
name; returns the new generator and the new state's index. -/
def newState (g : Gen) (base : String) (pos : Nat) : Gen × Nat :=
  ({ g with states :=
      g.states ++ [⟨g.freshName base, pos, g.mode, [], .plain⟩] },
   g.states.length)

/-- Direct append of an OperationState (no uniqueness check in the
source; its mode is the default "slave" and its pos is 0). -/
def addOpState (g : Gen) (op : Option Operation) (nm : String) :
    Gen × Nat :=
  ({ g with states := g.states ++ [⟨nm, 0, "slave", [], .opState op⟩] },
   g.states.length)

end Gen

/-- The operation attached to the terminal state at a break: NOTHING
produces the NoOperation sentinel; a named callback is looked up in the
callbacks dictionary (a miss would be a Python KeyError, though the
prologue of `process_sequence` rules it out). -/
def crcOpRes (chain : List CmdItem) (cbName : String)
    (cbs : List (String × List Param)) : Except Err (Option Operation) :=
  if cbName = "NOTHING" then .ok none
  else
    match dictGet? cbName cbs with
    | some proto => .ok (some ⟨cbName, proto, chain⟩)
    | none => .error .keyError

/-- First half of the breaking iteration of `process_sequence`: create
the `__CRC` state and the crc-flagged transition into it.  Returns the
updated generator and the CRC state's index. -/
def crcG2 (cbName : String) (g : Gen) (sid : Nat) (m : Matcher) :
    Gen × Nat :=
  let s := g.node sid
  let p1 := g.newState
    (Gen.nodeNextName s (some ("_" ++ pyUpper cbName ++ "__CRC")))
    (s.pos + m.size)
  (p1.1.addTransition sid ⟨m, p1.2, true⟩, p1.2)

/-- Second half of the break: append the terminal OperationState and the
CrcTail transition from the CRC state into it. -/
def crcFinish (cbName : String) (g2 : Gen) (crcId : Nat)
    (op : Option Operation) : Gen :=
  let p2 := g2.addOpState op ("RDY_TO_CALL__" ++ pyUpper cbName)
  p2.1.addTransition crcId ⟨crcMatcher, p2.2, false⟩

/-- The breaking iteration of `process_sequence`: create the `__CRC`
state, the crc-flagged transition into it, the terminal OperationState,
and the CrcTail transition; the visited states are the current one and
the CRC state. -/
def crcStep (chain : List CmdItem) (cbName : String) (g : Gen) (sid : Nat)
    (m : Matcher) : (Except Err Gen) × List Nat :=
  match crcOpRes chain cbName (crcG2 cbName g sid m).1.callbacks with
  | .error e => (.error e, [sid, (crcG2 cbName g sid m).2])
  | .ok op =>
    (.ok (crcFinish cbName (crcG2 cbName g sid m).1 (crcG2 cbName g sid m).2 op),
     [sid, (crcG2 cbName g sid m).2])

/-- A non-breaking insertion: allocate the next state and the transition
into it; returns the new generator and the new state's index. -/
def plainStepGen (g : Gen) (sid : Nat) (m : Matcher) : Gen × Nat :=
  let s := g.node sid
  let p1 := g.newState (Gen.nodeNextName s m.alia) (s.pos + m.size)
  (p1.1.addTransition sid ⟨m, p1.2, false⟩, p1.2)

/-- One record of the builder loop of `process_sequence`, instrumented
with the list of visited state indices: the current state at each
iteration of `for index, matcher in enumerate(cmd)`, plus the CRC state
a breaking iteration moves to.  `chain` and `cbName` are the loop
invariants `[address_matcher] + cmd[:-1]` and `cmd[-1]`. -/
def seqLoopT (chain : List CmdItem) (cbName : String) :
    Gen → Nat → List CmdItem → (Except Err Gen) × List Nat
  | g, sid, [] => (.ok g, [sid])
  | _, sid, .name _ :: _ =>
    -- `pos += matcher.size` on a string: AttributeError
    (.error .attributeError, [sid])
  | g, sid, .matcher m :: rest =>
    match g.nextOf? sid m with
    | some nid =>
      let res := seqLoopT chain cbName g nid rest
      (res.1, sid :: res.2)
    | none =>
      match rest.head? with
      | some (.name _) => crcStep chain cbName g sid m
      | _ =>
        let st := plainStepGen g sid m
        let res := seqLoopT chain cbName st.1 st.2 rest
        (res.1, sid :: res.2)

/-- `CodeGenerator.process_sequence`: read the callback from the last
tuple element (appending the `NOTHING` sentinel when absent), verify a
named callback is declared, and run the insertion loop. -/
def processSeq (g : Gen) (addrM : Matcher) (sid : Nat) (cmd : Cmd) :
    (Except Err Gen) × List Nat :=
  match cmd.getLast? with
  | none => (.error .indexError, [])
  | some (.name cb) =>
    if (dictGet? cb g.callbacks).isNone then
      (.error (.parsing ("Unknown callback " ++ cb
        ++ ": Callback must be declared first")), [])
    else
      seqLoopT (.matcher addrM :: cmd.dropLast) cb g sid cmd
  | some (.matcher _) =>
    let cmdFull := cmd ++ [.name "NOTHING"]
    seqLoopT (.matcher addrM :: cmdFull.dropLast) "NOTHING" g sid cmdFull

/-- Insertion of all commands of one device, from the device state. -/
def foldCmds (g : Gen) (addrM : Matcher) (sid : Nat) (cmds : List Cmd) :
    Except Err Gen :=
  cmds.foldlM (fun gx c => (processSeq gx addrM sid c).1) g

/-- The runtime-address device: create the DEVICE state, the
RuntimeDeviceAddress matcher aliased with its name, and the transition
out of the DEVICE_ADDRESS state.  Returns the updated generator, the
address matcher and the device state's index. -/
def deviceStepRda (rootId : Nat) (g : Gen) : Gen × Matcher × Nat :=
  let p := g.newState "DEVICE" 1
  let am := rdaMatcher (some (p.1.node p.2).name)
  (p.1.addTransition rootId ⟨am, p.2, false⟩, am, p.2)

/-- A fixed-address device: create the DEVICE_<addr> state, the
`u8(addr)` matcher aliased with its name, and the transition out of the
DEVICE_ADDRESS state. -/
def deviceStepAddr (rootId : Nat) (g : Gen) (addr : Nat) :
    Gen × Matcher × Nat :=
  let p := g.newState ("DEVICE_" ++ natStr addr) 1
  let am := u8x addr (some (p.1.node p.2).name)
  (p.1.addTransition rootId ⟨am, p.2, false⟩, am, p.2)

/-- Handling of one root key inside `process_devices`; `rootId` is the
index of the DEVICE_ADDRESS state.  Keys that are neither `device` nor
`device@...` are skipped. -/
def handleDeviceKey (rootId : Nat) (g : Gen) (kv : String × List Cmd) :
    Except Err Gen :=
  if kv.1 = "device" then
    foldCmds (deviceStepRda rootId g).1 (deviceStepRda rootId g).2.1
      (deviceStepRda rootId g).2.2 kv.2
  else if strStartsWith kv.1 "device@" then
    match searchDevAddr kv.1.data with
    | none => .error (.parsing "Malformed device address")
    | some grp =>
      match parsePyIntBase0 grp with
      | none => .error .valueError
      | some addr =>
        if 254 < addr then
          .error (.parsing "device address must be <= 254")
        else
          foldCmds
            (deviceStepAddr rootId { g with deviceAddress := some addr }
              addr).1
            (deviceStepAddr rootId { g with deviceAddress := some addr }
              addr).2.1
            (deviceStepAddr rootId { g with deviceAddress := some addr }
              addr).2.2 kv.2
  else .ok g

/-- `CodeGenerator.process_devices`: create the initial DEVICE_ADDRESS
state, then process every root key in order. -/
def processDevices (g0 : Gen) (devs : List (String × List Cmd)) :
    Except Err Gen :=
  devs.foldlM (handleDeviceKey (g0.newState "DEVICE_ADDRESS" 0).2)
    (g0.newState "DEVICE_ADDRESS" 0).1

/-! ### The declarative input tree and the generator pipeline -/

/-- The in-memory declarative tree.  Recognized scalar keys become typed
fields; all `device` / `device@...` keys (with their command lists)
appear in `devices` in insertion order. -/
structure Tree where
  callbacks : Option (List (String × List Param)) := none
  identification : List (Nat × String) := []
  slaveId : Option Nat := none
  bufferSize : Option Nat := none
  mode : Option String := none
  nspace : Option String := none
  onReceived : Option String := none
  devices : List (String × List Cmd) := []
  deriving DecidableEq, Repr

/-- `CodeGenerator.process_callbacks`. -/
def processCallbacks (cbsIn : List (String × List Param)) :
    Except Err (List (String × List Param)) :=
  cbsIn.foldlM
    (fun acc kv =>
      if isValidCName kv.1 then .ok (dictSet kv.1 kv.2 acc)
      else .error (.parsing "Callback name is not a valid C function name"))
    []

/-- The buffer-size loop of `CodeGenerator.__init__`: maximum command
size over the keys matching `^device(@\d+)?$` (run before the synthetic
identification commands are injected). -/
def computeBufSize (devs : List (String × List Cmd)) : Nat :=
  devs.foldl
    (fun acc kv =>
      if isDecDeviceKey kv.1 then
        kv.2.foldl (fun a c => max a (cmdIntSize c)) acc
      else acc)
    0

/-- The synthetic Report Slave ID command (function 0x11). -/
def reportSlaveIdCmd : Cmd :=
  [.matcher (u8x 0x11 (some "REPORT_SLAVE_ID")),
   .name "on_report_slave_id"]

/-- The synthetic Read Device Identification command (0x2B / 0x0E). -/
def readDeviceIdCmd : Cmd :=
  [.matcher (u8x 0x2B (some "ENCAPSULATED_INTERFACE_TRANSPORT")),
   .matcher (u8x 0x0E (some "READ_DEVICE_IDENTIFICATION")),
   .matcher (u8range 0x01 0x03 (some "READ_DEVICE_ID_CODE")),
   .matcher (u8any (some "OBJECT_ID")),
   .name "on_read_device_identification"]

/-- The synthetic Diagnostics command (function 0x08). -/
def diagnosticsCmd : Cmd :=
  [.matcher (u8x 0x08 (some "DIAGNOSTICS")),
   .matcher (u16any (some "SUBFUNCTION")),
   .matcher (u16any (some "DATA")),
   .name "on_diagnostics"]

/-- The conformity-level loop over the identification keys, raising on a
key outside MEI_OBJECT_CATEGORY; `acc` is the running maximum. -/
def conformityFoldFrom (mode : String) (acc : Nat) :
    List (Nat × String) → Except Err Nat
  | [] => .ok acc
  | kv :: rest =>
    match meiCategory kv.1 with
    | none => .error (.parsing ("Invalid identification key "
        ++ natStr kv.1 ++ " in " ++ mode ++ " mode"))
    | some cat => conformityFoldFrom mode (max acc cat) rest

/-- Conformity-level computation over the identification keys (the
running maximum starts at 0). -/
def conformityFold (mode : String) (ident : List (Nat × String)) :
    Except Err Nat :=
  conformityFoldFrom mode 0 ident

/-- Append the synthetic commands to the chosen device key's list. -/
def appendCmds (devs : List (String × List Cmd)) (target : String)
    (extra : List Cmd) : List (String × List Cmd) :=
  devs.map fun kv => if kv.1 = target then (kv.1, kv.2 ++ extra) else kv

/-- The device node chosen for the synthetic identification commands:
the first key starting with `device@`, else the bare `device` key, else
a ParsingException. -/
def findDeviceTarget (tree : Tree) : Except Err String :=
  match tree.devices.find? fun kv => strStartsWith kv.1 "device@" with
  | some kv => .ok kv.1
  | none =>
    match dictGet? "device" tree.devices with
    | some _ => .ok "device"
    | none => .error (.parsing "identification requires a 'device' node")

/-- The identification extension of `CodeGenerator.__init__`: in slave
mode with PRODUCT_CODE declared, register the three synthetic callbacks,
compute the conformity level (validating every identification key), and
append the three synthetic commands to the chosen device list.  Returns
the final callbacks, the conformity level and the (mutated) tree. -/
def identExtension (tree : Tree) (mode : String)
    (cbs : List (String × List Param)) :
    Except Err ((List (String × List Param)) × Nat × Tree) :=
  if mode = "slave" ∧ (dictGet? PRODUCT_CODE tree.identification).isSome then
    match findDeviceTarget tree with
    | .error e => .error e
    | .ok target =>
      let cbsA := dictSet "on_report_slave_id" [] cbs
      match conformityFold mode tree.identification with
      | .error e => .error e
      | .ok conf =>
        let cbsB := dictSet "on_read_device_identification"
          [Param.mk .u8 (some "device_id"),
           Param.mk .u8 (some "object_id")] cbsA
        let cbsC := dictSet "on_diagnostics" [] cbsB
        .ok (cbsC, conf,
          { tree with devices := (appendCmds tree.devices target
              [reportSlaveIdCmd, readDeviceIdCmd, diagnosticsCmd]) })
  else .ok (cbs, 0, tree)

/-- The generator as initialised by `CodeGenerator.__init__` before
`process_devices` runs: empty state list, final callbacks, buffer size
from the original tree, scalar settings from the tree, and the
conformity level from the identification extension. -/
def initGen (tree : Tree)
    (res : (List (String × List Param)) × Nat × Tree) : Gen :=
  { states := [], callbacks := res.1,
    maxBufSize := max (computeBufSize tree.devices + 4)
      (tree.bufferSize.getD 0),
    mode := tree.mode.getD "slave", nspace := tree.nspace.getD "slave",
    slaveId := tree.slaveId.getD 0xFF,
    identification := tree.identification,
    conformityLevel := res.2.1, deviceAddress := none,
    onReadyReply := tree.onReceived }

/-- `CodeGenerator.__init__` followed by `process_devices`, in source
order: read identification and slave_id, require and process callbacks,
compute the buffer size from the original tree, validate the mode, run
the identification extension (which mutates the tree's chosen device
list), then build the state graph.  The returned tree is the input tree
as left after those mutations. -/
def buildGen (tree : Tree) : Except Err (Gen × Tree) :=
  match tree.callbacks with
  | none => .error (.parsing "Callbacks are required")
  | some cbsIn =>
    match processCallbacks cbsIn with
    | .error e => .error e
    | .ok cbs =>
      if tree.mode.getD "slave" ≠ "slave" ∧ tree.mode.getD "slave" ≠ "master" then
        .error (.parsing "The mode must be 'master' or 'slave'")
      else
        match identExtension tree (tree.mode.getD "slave") cbs with
        | .error e => .error e
        | .ok res =>
          match processDevices (initGen tree res) res.2.2.devices with
          | .error e => .error e
          | .ok g => .ok (g, res.2.2)

/-! ### Identification reply builders and the CLI outcome -/

/-- One packed element of a reply routine. -/
inductive PackItem where
  | setSize (n : Nat)
  | u8v (v : Nat)
  | str (s : String)
  deriving DecidableEq, Repr

/-- The identifier packed by the function-17 reply: the product code,
suffixed with an underscore and the model name exactly when MODEL_NAME
is declared. -/
def identString (ident : List (Nat × String)) (pc : String) : String :=
  match dictGet? MODEL_NAME ident with
  | some mn => pc ++ "_" ++ mn
  | none => pc

/-- `CodeGenerator.get_report_slave_id_function`, reduced to the packed
reply structure: empty (`none`) when the conformity level is 0, else
`set_size(2)` followed by the byte count `len(id)+2`, the slave id,
`0xFF`, and the identifier string. -/
def getReportSlaveId (g : Gen) : Except Err (Option (List PackItem)) :=
  if g.conformityLevel = 0 then .ok none
  else
    match dictGet? PRODUCT_CODE g.identification with
    | none => .error .keyError
    | some pc =>
      .ok (some [.setSize 2,
        .u8v ((identString g.identification pc).length + 2),
        .u8v g.slaveId, .u8v 0xFF, .str (identString g.identification pc)])

/-- The keys of MEI_OBJECT_CATEGORY in table order. -/
def meiKeys : List Nat :=
  [0x00, 0x01, 0x02, 0x03, 0x04, 0x05, 0x06,
   0x80, 0x81, 0x82, 0x83, 0x84, 0x85, 0x86, 0x87]

/-- `device_id_count[cat]` of `get_read_device_identification`: how many
table keys of that category are declared, ignoring categories above the
conformity level. -/
def catCount (g : Gen) (cat : Nat) : Nat :=
  (meiKeys.filter fun k =>
    meiCategory k = some cat ∧ cat ≤ g.conformityLevel ∧
      (dictGet? k g.identification).isSome).length

/-- The dictionary accesses of `get_read_device_identification` that can
raise KeyError: each emitted branch reads `all_objects` /
`device_id_count` at the categories of its conformity level. -/
def readIdChecks (g : Gen) : Except Err Unit :=
  if g.conformityLevel = 0 then .ok ()
  else if g.conformityLevel = BASIC_DEVICE_IDENTIFICATION then
    if catCount g BASIC_DEVICE_IDENTIFICATION = 0 then .error .keyError
    else .ok ()
  else if g.conformityLevel = REGULAR_DEVICE_IDENTIFICATION then
    if catCount g REGULAR_DEVICE_IDENTIFICATION = 0 ∨
        catCount g BASIC_DEVICE_IDENTIFICATION = 0 then .error .keyError
    else .ok ()
  else if g.conformityLevel = EXTENDED_DEVICE_IDENTIFICATION then
    if catCount g BASIC_DEVICE_IDENTIFICATION = 0 ∨
        catCount g REGULAR_DEVICE_IDENTIFICATION = 0 ∨
        catCount g EXTENDED_DEVICE_IDENTIFICATION = 0 then .error .keyError
    else .ok ()
  else .ok ()

/-- `get_prototypes` instantiates every parameter class
(`param(0).ctype`); an f32 parameter raises ValueError there. -/
def protoChecks (g : Gen) : Except Err Unit :=
  if g.callbacks.any (fun kv => kv.2.any fun p => p.cls.isFloat) then
    .error .valueError
  else .ok ()

/-- `get_callbacks_text` renders every OperationState's operation
(`Operation.to_code`), which performs the fit checks. -/
def callbacksChecks (g : Gen) : Except Err Unit :=
  g.states.foldlM
    (fun _ s =>
      match s.kind with
      | .opState (some o) => (opDecoders o.prototype o.chain).map fun _ => ()
      | _ => .ok ())
    ()

/-- The fallible part of `generate_code` (the placeholder dictionary is
built eagerly, in key order, inside the CLI's try block). -/
def renderChecks (g : Gen) : Except Err Unit := do
  callbacksChecks g
  protoChecks g
  let _ ← getReportSlaveId g
  readIdChecks g

/-- Everything the CLI's try block runs. -/
def buildAndRender (tree : Tree) : Except Err (Gen × Tree) := do
  let r ← buildGen tree
  renderChecks r.1
  pure r

/-- Material the CLI emits on a stream.  The generated text itself is
out of scope of the claims; the outcome records which channel received
what kind of line. -/
inductive OutLine where
  | errorLine (msg : String)
  | generatedCode
  | traceback
  deriving DecidableEq, Repr

/-- Observable outcome of one CLI run. -/
structure Outcome where
  stdout : List OutLine
  stderr : List OutLine
  exitCode : Nat
  written : List String
  deriving DecidableEq, Repr

/-- `Modbus.main`: a ParsingException is caught and reported via
`print("Error: " + str(e))` — standard output — after which the program
ends normally (exit status 0).  Any other exception escapes as a
traceback on stderr with exit status 1.  On success the artifact goes to
the output file when `-o` was given, else to standard output; the exit
status is 0. -/
def runCLI (tree : Tree) (output : Option String) : Outcome :=
  match buildAndRender tree with
  | .error (.parsing msg) =>
    { stdout := [.errorLine ("Error: " ++ msg)], stderr := [],
      exitCode := 0, written := [] }
  | .error _ =>
    { stdout := [], stderr := [.traceback], exitCode := 1, written := [] }
  | .ok _ =>
    match output with
    | some path =>
      { stdout := [], stderr := [], exitCode := 0, written := [path] }
    | none =>
      { stdout := [.generatedCode], stderr := [], exitCode := 0,
        written := [] }

/-! ### Invariants and auxiliary predicates -/

/-- Structural graph invariant: every transition points forward, to an
existing state of larger index.  The insertion algorithm only ever
creates such transitions (fresh states are appended at the end). -/
def GraphInv (g : Gen) : Prop :=
  ∀ (i : Nat) (s : StateNode), g.states[i]? = some s →
    ∀ t ∈ s.transition, i < t.next ∧ t.next < g.states.length

/-- Decidable form of `GraphInv`. -/
def graphInvB (g : Gen) : Bool :=
  (List.range g.states.length).all fun i =>
    match g.states[i]? with
    | some s =>
      s.transition.all fun t =>
        decide (i < t.next) && decide (t.next < g.states.length)
    | none => true

/-- `g'` extends `g`: same states (names, positions, kinds) with possibly
more transitions appended to each, and possibly more states at the end.
Every further run of the insertion algorithm produces an extension. -/
def Extends (g g' : Gen) : Prop :=
  g.states.length ≤ g'.states.length ∧
  ∀ j, j < g.states.length →
    ∃ s s' ts, g.states[j]? = some s ∧ g'.states[j]? = some s' ∧
      s'.name = s.name ∧ s'.pos = s.pos ∧ s'.mode = s.mode ∧
      s'.kind = s.kind ∧ s'.transition = s.transition ++ ts

/-- Equality of every generator field the state-graph construction never
writes (everything except `states` and `deviceAddress`). -/
def FieldsEq (a b : Gen) : Prop :=
  a.callbacks = b.callbacks ∧ a.maxBufSize = b.maxBufSize ∧
  a.mode = b.mode ∧ a.nspace = b.nspace ∧ a.slaveId = b.slaveId ∧
  a.identification = b.identification ∧
  a.conformityLevel = b.conformityLevel ∧ a.onReadyReply = b.onReadyReply

/-- The first `k` elements of both item lists exist, are matchers, and
are pairwise structurally equal (propositional form). -/
def SharedPrefix (k : Nat) (A B : List CmdItem) : Prop :=
  k ≤ A.length ∧ k ≤ B.length ∧
  ∀ i, i < k → ∃ ma mb, A[i]? = some (.matcher ma) ∧
    B[i]? = some (.matcher mb) ∧ ma.structEq mb = true

/-- The first `k` elements of both item lists exist, are matchers, and
are pairwise structurally equal. -/
def sharedPrefixB (k : Nat) (A B : List CmdItem) : Bool :=
  decide (k ≤ A.length) && decide (k ≤ B.length) &&
  ((List.range k).all fun i =>
    match A[i]?, B[i]? with
    | some (.matcher ma), some (.matcher mb) => ma.structEq mb
    | _, _ => false)

/-- Placeholder generator used by projections of failed results. -/
def defaultGen : Gen :=
  { states := [], callbacks := [], maxBufSize := 0, mode := "slave",
    nspace := "slave", slaveId := 0xFF, identification := [],
    conformityLevel := 0, deviceAddress := none, onReadyReply := none }

/-- Projection of a successful generator result. -/
def okGen : Except Err Gen → Gen
  | .ok g => g
  | .error _ => defaultGen

/-- Generator component of a successful build. -/
def okGenT : Except Err (Gen × Tree) → Gen
  | .ok r => r.1
  | .error _ => defaultGen

/-- Tree component of a successful build (the input tree as mutated). -/
def okTree : Except Err (Gen × Tree) → Tree
  | .ok r => r.2
  | .error _ => {}

/-- Whether an exceptional computation succeeded. -/
def exceptIsOk {ε α : Type} : Except ε α → Bool
  | .ok _ => true
  | .error _ => false

/-! ### Concrete inputs used by counterexamples and witnesses -/

/-- Overlapping sibling matchers `u8(5)` and `u8([5,6])` at one state. -/
def exTreeOverlap : Tree :=
  { callbacks := some [("cb1", []), ("cb2", [])],
    devices := [("device@1",
      [[.matcher (u8x 5), .name "cb1"],
       [.matcher (u8list [5, 6]), .name "cb2"]])] }

/-- A slave with identification declared (PRODUCT_CODE and MODEL_NAME)
and one small user command. -/
def exTreeIdent : Tree :=
  { callbacks := some [("on_x", [])],
    identification := [(PRODUCT_CODE, "PC"), (MODEL_NAME, "MX")],
    devices := [("device@1", [[.matcher (u8x 3), .name "on_x"]])] }

/-- An identification mapping without PRODUCT_CODE. -/
def exTreeNoPC : Tree :=
  { callbacks := some [("on_x", [])],
    identification := [(MODEL_NAME, "MX")],
    devices := [("device@1", [[.matcher (u8x 3), .name "on_x"]])] }

/-- The empty declarative tree (no callbacks at all). -/
def exTreeEmpty : Tree := {}

/-- Two commands naming the same callback. -/
def exTreeDupCb : Tree :=
  { callbacks := some [("on_x", [])],
    devices := [("device@1",
      [[.matcher (u8x 1), .name "on_x"],
       [.matcher (u8x 2), .name "on_x"]])] }

/-- The single-command scenario of the specification (one u8 function
code, one u16 payload, CRC, callback `on_read(u16)`). -/
def exTreeS1 : Tree :=
  { callbacks := some [("on_read", [⟨.u16, none⟩])],
    devices := [("device@1",
      [[.matcher (u8x 3), .matcher (u16range 0 0x100), .name "on_read"]])] }

/-- Prototype of the single-command scenario's callback: one bare u16. -/
def exProto1 : List Param := [⟨.u16, none⟩]

/-- Capture chain of that scenario: address byte, function code, u16
payload. -/
def exChain1 : List CmdItem :=
  [.matcher (u8x 1), .matcher (u8x 3), .matcher (u16range 0 0x100)]

/-- Two commands sharing their first matcher, then diverging. -/
def c3A : List CmdItem := [.matcher (u8x 3), .matcher (u8x 1), .name "cba"]

def c3B : List CmdItem := [.matcher (u8x 3), .matcher (u8x 2), .name "cbb"]

/-- A generator with one open state, two declared callbacks and nothing
else, used to exercise the insertion loop directly. -/
def exGen0 : Gen :=
  { states := [⟨"DEVICE_1", 1, "slave", [], .plain⟩],
    callbacks := [("cba", []), ("cbb", [])],
    maxBufSize := 0, mode := "slave", nspace := "slave", slaveId := 0xFF,
    identification := [], conformityLevel := 0, deviceAddress := none,
    onReadyReply := none }

/-! ## Claim C2: the size-fit check -/

/-- C2 counterexample.  The claim asserts that the half-open matcher
`u16(0, 0x100)` fits a `u8` parameter and that an `Any` matcher never
fits a strictly narrower parameter.  The code decides both the other
way: the range check compares `to` against the parameter's inclusive
maximum (`v.max >= _to`, so `0x100 > 0xFF` fails), and a wildcard value
falls through every `isinstance` branch to `return True`. -/
theorem C2_counterexample :
    Matcher.fits (u16range 0 0x100) MatcherClass.u8 = some false ∧
    Matcher.fits (u16any) MatcherClass.u8 = some true := by
  decide

/-- C2 (amended): `fits` succeeds for any parameter at least as wide as
the matcher; for a strictly narrower (non-float) parameter it succeeds
iff a Range lies within the parameter's inclusive bounds
(`0 ≤ from ∧ to ≤ 2^pw − 1` for unsigned, analogously for signed), iff
every OneOf element lies within those bounds, and always for an Exact,
float or Any (wildcard) matcher. -/
theorem C2_fits_characterization (m : Matcher) (p : MatcherClass)
    (hp : p.isFloat = false) :
    m.fits p = some true ↔
      (m.cls.size ≤ p.size ∨
        match m.value with
        | .range lo hi =>
          if p.isSigned then
            -((2 : Int) ^ (p.bits - 1)) ≤ lo ∧ hi ≤ (2 : Int) ^ (p.bits - 1) - 1
          else 0 ≤ lo ∧ hi ≤ (2 : Int) ^ p.bits - 1
        | .intList vs =>
          if p.isSigned then
            ∀ t ∈ vs, -((2 : Int) ^ (p.bits - 1)) ≤ t ∧ t ≤ (2 : Int) ^ (p.bits - 1) - 1
          else ∀ t ∈ vs, 0 ≤ t ∧ t ≤ (2 : Int) ^ p.bits - 1
        | _ => True) := by
  unfold Matcher.fits
  rw [hp]
  simp only [Bool.false_eq_true, if_false]
  by_cases hsz : m.size ≤ p.size
  · simp only [if_pos hsz]
    simp [Matcher.size] at hsz
    simp [hsz]
  · simp only [if_neg hsz]
    simp [Matcher.size] at hsz
    have hsz' : ¬ m.cls.size ≤ p.size := by omega
    cases hv : m.value with
    | wildcard => simp [hsz']
    | intVal v => simp [hsz']
    | floatVal q => simp [hsz']
    | range lo hi =>
      simp only [hsz', false_or]
      rw [Option.some_inj, decide_eq_true_iff]
      unfold MatcherClass.minVal MatcherClass.maxVal
      by_cases hs : p.isSigned <;> simp [hs]
    | intList vs =>
      simp only [hsz', false_or]
      rw [Option.some_inj, List.all_eq_true]
      unfold MatcherClass.minVal MatcherClass.maxVal
      by_cases hs : p.isSigned <;> simp [hs]

/-- C2 witness: the theorem applied to the inclusive range
`u16(0, 0xFF)` against a `u8` parameter. -/
theorem C2_fits_characterization_witness :
    MatcherClass.u8.isFloat = false ∧
    Matcher.fits (u16range 0 0xFF) MatcherClass.u8 = some true := by
  refine ⟨by decide, ?_⟩
  rw [C2_fits_characterization (u16range 0 0xFF) MatcherClass.u8 (by decide)]
  right
  norm_num [u16range, MatcherClass.isSigned, MatcherClass.bits]

/-! ## Claim C4: argument offsets and decoder forms -/

theorem cmdIntSize_reverse (l : List CmdItem) :
    cmdIntSize l.reverse = cmdIntSize l := by
  simp [cmdIntSize, List.map_reverse, List.sum_reverse]

theorem matcherClassSize_cases (c : MatcherClass) :
    c.size = 1 ∨ c.size = 2 ∨ c.size = 4 := by
  cases c <;> simp [MatcherClass.size, MatcherClass.bits]

theorem mkDecoder_isSome (c : MatcherClass) (o : Int) :
    ∃ d, mkDecoder c.size o = some d := by
  rcases matcherClassSize_cases c with h | h | h <;> rw [h] <;>
    simp [mkDecoder]

/-- Per-step characterisation of the reversed processing loop of
`Operation.to_code`. -/
theorem opDecodersAux_spec (protoRev : List Param) :
    ∀ chainRev ds, opDecodersAux protoRev chainRev = .ok ds →
      ds.length = protoRev.length ∧ protoRev.length ≤ chainRev.length ∧
      ∀ i, i < protoRev.length →
        ∃ p m, protoRev[i]? = some p ∧ chainRev[i]? = some (.matcher m) ∧
          ds[i]? = mkDecoder p.cls.size
            ((cmdIntSize (chainRev.drop (i + 1)) : Int)
              + (m.size : Int) - (p.cls.size : Int)) := by
  induction protoRev with
  | nil =>
    intro chainRev ds h
    simp only [opDecodersAux, Except.ok.injEq] at h
    subst h
    exact ⟨rfl, Nat.zero_le _, fun i hi => absurd hi (Nat.not_lt_zero i)⟩
  | cons p ps ih =>
    intro chainRev ds h
    cases chainRev with
    | nil => simp [opDecodersAux] at h
    | cons item crest =>
      cases item with
      | name s => simp [opDecodersAux] at h
      | matcher m =>
        cases hf : m.fits p.cls with
        | none => simp [opDecodersAux, hf] at h
        | some b =>
          cases b with
          | false => simp [opDecodersAux, hf] at h
          | true =>
            cases haux : opDecodersAux ps crest with
            | error e => simp [opDecodersAux, hf, haux] at h
            | ok rest =>
              obtain ⟨d, hd⟩ := mkDecoder_isSome p.cls
                ((cmdIntSize crest.reverse : Int) + (m.size : Int)
                  - (p.cls.size : Int))
              have hds : ds = d :: rest := by
                simp only [opDecodersAux, hf, haux, hd, Except.ok.injEq] at h
                exact h.symm
              obtain ⟨ihl, ihle, ihp⟩ := ih crest rest haux
              subst hds
              refine ⟨by simp [ihl], by simpa using Nat.succ_le_succ ihle, ?_⟩
              intro i hi
              cases i with
              | zero =>
                refine ⟨p, m, by simp, by simp, ?_⟩
                rw [cmdIntSize_reverse] at hd
                simpa using hd.symm
              | succ j =>
                have hj : j < ps.length := by simpa using hi
                obtain ⟨p', m', hp', hm', hd'⟩ := ihp j hj
                exact ⟨p', m', by simpa using hp', by simpa using hm',
                  by simpa using hd'⟩

/-- C4: for each prototype parameter (index `i`, aligned right-to-left
against the tail of the capture chain at index `|chain| − |proto| + i`),
the emitted decoder's byte offset is the summed size of the chain items
before the aligned matcher, plus the matcher/parameter width difference
(so a narrower parameter reads the least-significant bytes of the
matched field), and the decoder form (`byte[o]` / `ntoh(o)` /
`ntohl(o)`) is selected by the parameter's byte width
(`mkDecoder p.cls.size`). -/
theorem C4_offset_formula (proto : List Param) (chain : List CmdItem)
    (ds : List Decoder) (h : opDecoders proto chain = .ok ds)
    (i : Nat) (hi : i < proto.length) :
    ds.length = proto.length ∧
    ∃ p m, proto[i]? = some p ∧
      chain[chain.length - proto.length + i]? = some (.matcher m) ∧
      ds[i]? = mkDecoder p.cls.size
        ((cmdIntSize (chain.take (chain.length - proto.length + i)) : Int)
          + (m.size : Int) - (p.cls.size : Int)) := by
  unfold opDecoders at h
  cases haux : opDecodersAux proto.reverse chain.reverse with
  | error e => rw [haux] at h; simp [Except.map] at h
  | ok dsr =>
    rw [haux] at h
    simp only [Except.map, Except.ok.injEq] at h
    obtain ⟨hlen, hle, hp⟩ :=
      opDecodersAux_spec proto.reverse chain.reverse dsr haux
    rw [List.length_reverse] at hlen
    rw [List.length_reverse, List.length_reverse] at hle
    subst h
    obtain ⟨p, m, hp1, hm1, hd1⟩ := hp (proto.length - 1 - i)
      (by rw [List.length_reverse]; omega)
    refine ⟨by simp [hlen], p, m, ?_, ?_, ?_⟩
    · have hx : proto.length - 1 - i < proto.length := by omega
      rw [List.getElem?_reverse hx] at hp1
      have e1 : proto.length - 1 - (proto.length - 1 - i) = i := by omega
      rwa [e1] at hp1
    · have hx : proto.length - 1 - i < chain.length := by omega
      rw [List.getElem?_reverse hx] at hm1
      have e2 : chain.length - 1 - (proto.length - 1 - i) =
          chain.length - proto.length + i := by omega
      rwa [e2] at hm1
    · have hx : i < dsr.length := by omega
      rw [List.getElem?_reverse hx]
      have e3 : dsr.length - 1 - i = proto.length - 1 - i := by omega
      rw [e3, hd1, List.drop_reverse, cmdIntSize_reverse]
      have e4 : chain.length - (proto.length - 1 - i + 1) =
          chain.length - proto.length + i := by omega
      rw [e4]

/-- C4 witness: the single-command scenario's operation
`on_read : [u16]` with chain `[u8 addr, u8 func, u16 payload]` emits
`ntoh(2)`. -/
theorem C4_offset_formula_witness :
    opDecoders exProto1 exChain1 = .ok [.ntoh 2] ∧
    0 < exProto1.length ∧
    ([Decoder.ntoh 2].length = exProto1.length ∧
      ∃ p m, exProto1[0]? = some p ∧
        (exChain1[exChain1.length - exProto1.length + 0]? =
          some (.matcher m)) ∧
        [Decoder.ntoh 2][0]? = mkDecoder p.cls.size
          ((cmdIntSize
              (exChain1.take (exChain1.length - exProto1.length + 0)) : Int)
            + (m.size : Int) - (p.cls.size : Int))) :=
  ⟨by rfl, by decide,
    C4_offset_formula exProto1 exChain1 [.ntoh 2] (by rfl) 0 (by decide)⟩

/-! ## General lemmas about the graph operations -/

theorem length_listModify {α : Type} (f : α → α) (l : List α) (i : Nat) :
    (listModify f l i).length = l.length := by
  induction l generalizing i with
  | nil => rfl
  | cons x xs ih =>
    cases i with
    | zero => rfl
    | succ n => simp [listModify, ih]

theorem getElem?_listModify_ne {α : Type} (f : α → α) (l : List α)
    (i j : Nat) (h : j ≠ i) : (listModify f l i)[j]? = l[j]? := by
  induction l generalizing i j with
  | nil => rfl
  | cons x xs ih =>
    cases i with
    | zero =>
      cases j with
      | zero => exact absurd rfl h
      | succ jj => simp [listModify]
    | succ ii =>
      cases j with
      | zero => simp [listModify]
      | succ jj => simpa [listModify] using ih ii jj (by omega)

theorem getElem?_listModify_self {α : Type} (f : α → α) (l : List α)
    (i : Nat) : (listModify f l i)[i]? = (l[i]?).map f := by
  induction l generalizing i with
  | nil => rfl
  | cons x xs ih =>
    cases i with
    | zero => simp [listModify]
    | succ n => simpa [listModify] using ih n

theorem node_eq_getElem? (g : Gen) (sid : Nat) :
    g.node sid = (g.states[sid]?).getD default := by
  simp [Gen.node, List.getD_eq_getElem?_getD]

theorem node_of_lt (g : Gen) (sid : Nat) (h : sid < g.states.length) :
    g.states[sid]? = some (g.node sid) := by
  rw [node_eq_getElem?, List.getElem?_eq_getElem h]
  rfl

theorem states_addTransition (g : Gen) (sid : Nat) (t : Transition) :
    (g.addTransition sid t).states =
      listModify (fun s => { s with transition := s.transition ++ [t] })
        g.states sid := rfl

theorem length_addTransition (g : Gen) (sid : Nat) (t : Transition) :
    (g.addTransition sid t).states.length = g.states.length := by
  rw [states_addTransition, length_listModify]

theorem node_addTransition_ne (g : Gen) (sid j : Nat) (t : Transition)
    (h : j ≠ sid) : (g.addTransition sid t).node j = g.node j := by
  rw [node_eq_getElem?, node_eq_getElem?, states_addTransition,
    getElem?_listModify_ne _ _ _ _ h]

theorem node_addTransition_self (g : Gen) (sid : Nat) (t : Transition)
    (h : sid < g.states.length) :
    (g.addTransition sid t).node sid =
      { g.node sid with transition := (g.node sid).transition ++ [t] } := by
  rw [node_eq_getElem?, states_addTransition, getElem?_listModify_self,
    List.getElem?_eq_getElem h]
  rw [node_eq_getElem?, List.getElem?_eq_getElem h]
  rfl

theorem newState_states (g : Gen) (b : String) (p : Nat) :
    (g.newState b p).1.states =
      g.states ++ [⟨g.freshName b, p, g.mode, [], .plain⟩] := rfl

theorem newState_idx (g : Gen) (b : String) (p : Nat) :
    (g.newState b p).2 = g.states.length := rfl

theorem addOpState_states (g : Gen) (op : Option Operation) (nm : String) :
    (g.addOpState op nm).1.states =
      g.states ++ [⟨nm, 0, "slave", [], .opState op⟩] := rfl

theorem addOpState_idx (g : Gen) (op : Option Operation) (nm : String) :
    (g.addOpState op nm).2 = g.states.length := rfl

theorem node_append_lt (g : Gen) (st : StateNode) (sid : Nat)
    (h : sid < g.states.length) :
    ({ g with states := g.states ++ [st] } : Gen).node sid = g.node sid := by
  rw [node_eq_getElem?, node_eq_getElem?]
  show ((g.states ++ [st])[sid]?).getD default = _
  rw [List.getElem?_append, if_pos h]

theorem node_newState_lt (g : Gen) (b : String) (p : Nat) (sid : Nat)
    (h : sid < g.states.length) :
    (g.newState b p).1.node sid = g.node sid :=
  node_append_lt g _ sid h

theorem node_addOpState_lt (g : Gen) (op : Option Operation) (nm : String)
    (sid : Nat) (h : sid < g.states.length) :
    (g.addOpState op nm).1.node sid = g.node sid :=
  node_append_lt g _ sid h

theorem structEq_iff (a b : Matcher) :
    a.structEq b = true ↔ a.cls = b.cls ∧ a.value = b.value := by
  simp [Matcher.structEq]

theorem nextOf?_congr (g : Gen) (sid : Nat) (ma mb : Matcher)
    (h : ma.structEq mb = true) :
    g.nextOf? sid ma = g.nextOf? sid mb := by
  obtain ⟨h1, h2⟩ := (structEq_iff ma mb).mp h
  unfold Gen.nextOf?
  have hfun : (fun t : Transition => t.matcher.structEq ma) =
      (fun t : Transition => t.matcher.structEq mb) := by
    funext t
    simp [Matcher.structEq, h1, h2]
  rw [hfun]

theorem nextOf?_some_bounds (g : Gen) (sid nid : Nat) (m : Matcher)
    (hinv : GraphInv g) (h : g.nextOf? sid m = some nid) :
    sid < nid ∧ nid < g.states.length := by
  unfold Gen.nextOf? at h
  cases hfind : (g.node sid).transition.find?
      (fun t => t.matcher.structEq m) with
  | none => rw [hfind] at h; simp at h
  | some t =>
    rw [hfind] at h
    simp only [Option.map_some', Option.some.injEq] at h
    have hmem : t ∈ (g.node sid).transition := List.mem_of_find?_eq_some hfind
    by_cases hsid : sid < g.states.length
    · have := hinv sid (g.node sid) (node_of_lt g sid hsid) t hmem
      omega
    · exfalso
      rw [node_eq_getElem?] at hmem
      rw [List.getElem?_eq_none (by omega)] at hmem
      simp at hmem
      cases hmem

theorem getElem?_addTransition_self (g : Gen) (sid : Nat) (t : Transition)
    (h : sid < g.states.length) :
    (g.addTransition sid t).states[sid]? =
      some { g.node sid with transition := (g.node sid).transition ++ [t] } := by
  rw [states_addTransition, getElem?_listModify_self,
    List.getElem?_eq_getElem h]
  simp [node_eq_getElem?, List.getElem?_eq_getElem h]

theorem getElem?_addTransition_ne (g : Gen) (sid j : Nat) (t : Transition)
    (h : j ≠ sid) : (g.addTransition sid t).states[j]? = g.states[j]? := by
  rw [states_addTransition, getElem?_listModify_ne _ _ _ _ h]

theorem extends_refl (g : Gen) : Extends g g := by
  refine ⟨le_refl _, fun j hj => ?_⟩
  exact ⟨g.node j, g.node j, [], node_of_lt g j hj, node_of_lt g j hj,
    rfl, rfl, rfl, rfl, by simp⟩

theorem extends_trans {g1 g2 g3 : Gen} (h12 : Extends g1 g2)
    (h23 : Extends g2 g3) : Extends g1 g3 := by
  obtain ⟨hl12, hm12⟩ := h12
  obtain ⟨hl23, hm23⟩ := h23
  refine ⟨le_trans hl12 hl23, fun j hj => ?_⟩
  obtain ⟨s, s', ts, hs, hs', hn, hp, hmo, hk, htr⟩ := hm12 j hj
  obtain ⟨s2, s'', ts', hs2, hs'', hn2, hp2, hmo2, hk2, htr2⟩ :=
    hm23 j (lt_of_lt_of_le hj hl12)
  rw [hs'] at hs2
  injection hs2 with heq
  subst heq
  exact ⟨s, s'', ts ++ ts', hs, hs'', by rw [hn2, hn], by rw [hp2, hp],
    by rw [hmo2, hmo], by rw [hk2, hk],
    by rw [htr2, htr, List.append_assoc]⟩

theorem extends_addTransition (g : Gen) (sid : Nat) (t : Transition) :
    Extends g (g.addTransition sid t) := by
  refine ⟨by rw [length_addTransition], fun j hj => ?_⟩
  by_cases hjs : j = sid
  · subst hjs
    exact ⟨g.node j, _, [t], node_of_lt g j hj,
      getElem?_addTransition_self g j t hj, rfl, rfl, rfl, rfl, rfl⟩
  · refine ⟨g.node j, g.node j, [], node_of_lt g j hj, ?_, rfl, rfl, rfl,
      rfl, by simp⟩
    rw [getElem?_addTransition_ne g sid j t hjs]
    exact node_of_lt g j hj

theorem extends_append_state (g : Gen) (st : StateNode) :
    Extends g { g with states := g.states ++ [st] } := by
  refine ⟨by simp, fun j hj => ?_⟩
  refine ⟨g.node j, g.node j, [], node_of_lt g j hj, ?_, rfl, rfl, rfl,
    rfl, by simp⟩
  show (g.states ++ [st])[j]? = _
  rw [List.getElem?_append, if_pos hj]
  exact node_of_lt g j hj

theorem extends_newState (g : Gen) (b : String) (p : Nat) :
    Extends g (g.newState b p).1 :=
  extends_append_state g _

theorem extends_addOpState (g : Gen) (op : Option Operation) (nm : String) :
    Extends g (g.addOpState op nm).1 :=
  extends_append_state g _

theorem callbacks_addTransition (g : Gen) (sid : Nat) (t : Transition) :
    (g.addTransition sid t).callbacks = g.callbacks := rfl

theorem callbacks_newState (g : Gen) (b : String) (p : Nat) :
    (g.newState b p).1.callbacks = g.callbacks := rfl

theorem nextOf?_extends (g g' : Gen) (sid : Nat) (m : Matcher) (nid : Nat)
    (hext : Extends g g') (hsid : sid < g.states.length)
    (h : g.nextOf? sid m = some nid) : g'.nextOf? sid m = some nid := by
  obtain ⟨hl, hm⟩ := hext
  obtain ⟨s, s', ts, hs, hs', hn, hp, hmo, hk, htr⟩ := hm sid hsid
  unfold Gen.nextOf? at h ⊢
  have hnode : g.node sid = s := by rw [node_eq_getElem?, hs]; rfl
  have hnode' : g'.node sid = s' := by rw [node_eq_getElem?, hs']; rfl
  rw [hnode] at h
  rw [hnode', htr]
  cases hfind : s.transition.find? (fun t => t.matcher.structEq m) with
  | none => rw [hfind] at h; simp at h
  | some t =>
    rw [hfind] at h
    rw [List.find?_append, hfind]
    simpa using h

theorem structEq_symm_query (m mb : Matcher) (h : m.structEq mb = true) :
    (fun t : Transition => t.matcher.structEq mb) =
      (fun t : Transition => t.matcher.structEq m) := by
  obtain ⟨h1, h2⟩ := (structEq_iff m mb).mp h
  funext t
  simp [Matcher.structEq, h1, h2]

theorem nextOf?_insert_hit (g : Gen) (st : StateNode) (sid : Nat)
    (m mb : Matcher) (nid : Nat) (fl : Bool)
    (hs : sid < g.states.length) (hmiss : g.nextOf? sid m = none)
    (heq : m.structEq mb = true) :
    (({ g with states := g.states ++ [st] } : Gen).addTransition sid
        ⟨m, nid, fl⟩).nextOf? sid mb = some nid := by
  unfold Gen.nextOf? at hmiss ⊢
  have hlen : sid < ({ g with states := g.states ++ [st] } : Gen).states.length := by
    simp; omega
  have hnode0 : ({ g with states := g.states ++ [st] } : Gen).node sid =
      g.node sid := node_append_lt g st sid hs
  have hnode : (({ g with states := g.states ++ [st] } : Gen).addTransition
      sid ⟨m, nid, fl⟩).node sid =
      { g.node sid with transition := (g.node sid).transition ++ [⟨m, nid, fl⟩] } := by
    rw [node_addTransition_self _ sid _ hlen, hnode0]
  rw [hnode]
  simp only
  rw [structEq_symm_query m mb heq]
  cases hfind : (g.node sid).transition.find?
      (fun t => t.matcher.structEq m) with
  | none =>
    rw [List.find?_append, hfind]
    simp [List.find?, show m.structEq m = true by simp [Matcher.structEq]]
  | some t => rw [hfind] at hmiss; simp at hmiss

theorem graphInv_append_add (g : Gen) (st : StateNode)
    (hst : st.transition = []) (sid : Nat) (m : Matcher) (fl : Bool)
    (hinv : GraphInv g) (hs : sid < g.states.length) :
    GraphInv (({ g with states := g.states ++ [st] } : Gen).addTransition
      sid ⟨m, g.states.length, fl⟩) := by
  intro i s hget t hmem
  have hlen : (({ g with states := g.states ++ [st] } : Gen).addTransition
      sid ⟨m, g.states.length, fl⟩).states.length = g.states.length + 1 := by
    rw [length_addTransition]; simp
  have hs' : sid < (g.states ++ [st]).length := by simp; omega
  rw [hlen]
  by_cases hi : i = sid
  · subst hi
    have hbase : ({ g with states := g.states ++ [st] } : Gen).node i =
        g.node i := node_append_lt g st i hs
    rw [getElem?_addTransition_self _ i _ hs', hbase] at hget
    injection hget with hget
    subst hget
    simp only at hmem
    rw [List.mem_append] at hmem
    cases hmem with
    | inl hmem =>
      have := hinv i (g.node i) (node_of_lt g i hs) t hmem
      omega
    | inr hmem =>
      simp at hmem
      subst hmem
      simp
      omega
  · rw [getElem?_addTransition_ne _ sid i _ hi] at hget
    by_cases hi2 : i < g.states.length
    · show i < t.next ∧ t.next < g.states.length + 1
      rw [show ({ g with states := g.states ++ [st] } : Gen).states =
        g.states ++ [st] from rfl] at hget
      rw [List.getElem?_append, if_pos hi2] at hget
      have := hinv i s hget t hmem
      omega
    · by_cases hi3 : i = g.states.length
      · subst hi3
        rw [show ({ g with states := g.states ++ [st] } : Gen).states =
          g.states ++ [st] from rfl] at hget
        rw [List.getElem?_append_right (le_refl _)] at hget
        simp at hget
        subst hget
        rw [hst] at hmem
        cases hmem
      · rw [show ({ g with states := g.states ++ [st] } : Gen).states =
          g.states ++ [st] from rfl] at hget
        rw [List.getElem?_eq_none (by simp; omega)] at hget
        cases hget

theorem crcG2_idx (cb : String) (g : Gen) (sid : Nat) (m : Matcher) :
    (crcG2 cb g sid m).2 = g.states.length := rfl

theorem crcG2_extends (cb : String) (g : Gen) (sid : Nat) (m : Matcher) :
    Extends g (crcG2 cb g sid m).1 :=
  extends_trans (extends_newState g _ _) (extends_addTransition _ sid _)

theorem crcFinish_extends (cb : String) (g2 : Gen) (crcId : Nat)
    (op : Option Operation) : Extends g2 (crcFinish cb g2 crcId op) :=
  extends_trans (extends_addOpState _ _ _) (extends_addTransition _ _ _)

theorem crcStep_trace (chain : List CmdItem) (cb : String) (g : Gen)
    (sid : Nat) (m : Matcher) :
    (crcStep chain cb g sid m).2 = [sid, g.states.length] := by
  unfold crcStep
  cases crcOpRes chain cb (crcG2 cb g sid m).1.callbacks with
  | error e => rfl
  | ok op => rfl

theorem crcStep_extends (chain : List CmdItem) (cb : String) (g : Gen)
    (sid : Nat) (m : Matcher) (g' : Gen)
    (h : (crcStep chain cb g sid m).1 = .ok g') : Extends g g' := by
  unfold crcStep at h
  cases hop : crcOpRes chain cb (crcG2 cb g sid m).1.callbacks with
  | error e => rw [hop] at h; simp at h
  | ok op =>
    rw [hop] at h
    simp only [Except.ok.injEq] at h
    subst h
    exact extends_trans (crcG2_extends cb g sid m) (crcFinish_extends _ _ _ _)

theorem plainStepGen_extends (g : Gen) (sid : Nat) (m : Matcher) :
    Extends g (plainStepGen g sid m).1 :=
  extends_trans (extends_newState g _ _) (extends_addTransition _ sid _)

theorem plainStepGen_idx (g : Gen) (sid : Nat) (m : Matcher) :
    (plainStepGen g sid m).2 = g.states.length := rfl

theorem plainStepGen_length (g : Gen) (sid : Nat) (m : Matcher) :
    (plainStepGen g sid m).1.states.length = g.states.length + 1 := by
  unfold plainStepGen
  rw [length_addTransition]
  simp [newState_states]

theorem plainStepGen_graphInv (g : Gen) (sid : Nat) (m : Matcher)
    (hinv : GraphInv g) (hs : sid < g.states.length) :
    GraphInv (plainStepGen g sid m).1 :=
  graphInv_append_add g _ rfl sid m false hinv hs

theorem plainStepGen_nextOf? (g : Gen) (sid : Nat) (m mb : Matcher)
    (hs : sid < g.states.length) (hmiss : g.nextOf? sid m = none)
    (heq : m.structEq mb = true) :
    (plainStepGen g sid m).1.nextOf? sid mb = some g.states.length :=
  nextOf?_insert_hit g _ sid m mb g.states.length false hs hmiss heq

theorem seqLoopT_trace_head (chain : List CmdItem) (cb : String)
    (g : Gen) (sid : Nat) (items : List CmdItem) :
    ∃ tl, (seqLoopT chain cb g sid items).2 = sid :: tl := by
  cases items with
  | nil => exact ⟨[], rfl⟩
  | cons item rest =>
    cases item with
    | name s => exact ⟨[], rfl⟩
    | matcher m =>
      cases hn : g.nextOf? sid m with
      | some nid =>
        simp only [seqLoopT, hn]
        exact ⟨_, rfl⟩
      | none =>
        cases rest with
        | nil =>
          simp only [seqLoopT, hn]
          exact ⟨_, rfl⟩
        | cons it rs =>
          cases it with
          | name s2 =>
            simp only [seqLoopT, hn, List.head?_cons]
            rw [crcStep_trace]
            exact ⟨_, rfl⟩
          | matcher m2 =>
            simp only [seqLoopT, hn, List.head?_cons]
            exact ⟨_, rfl⟩

theorem node_append_add_self (g : Gen) (st : StateNode) (sid : Nat)
    (t : Transition) (hs : sid < g.states.length) :
    (({ g with states := g.states ++ [st] } : Gen).addTransition sid t).node
        sid =
      { g.node sid with transition := (g.node sid).transition ++ [t] } := by
  rw [node_addTransition_self _ sid _ (by simp; omega),
    node_append_lt g st sid hs]

theorem crcG2_node_self (cb : String) (g : Gen) (sid : Nat) (m : Matcher)
    (hs : sid < g.states.length) :
    (crcG2 cb g sid m).1.node sid =
      { g.node sid with transition :=
          (g.node sid).transition ++ [⟨m, g.states.length, true⟩] } :=
  node_append_add_self g _ sid _ hs

theorem plainStepGen_node_self (g : Gen) (sid : Nat) (m : Matcher)
    (hs : sid < g.states.length) :
    (plainStepGen g sid m).1.node sid =
      { g.node sid with transition :=
          (g.node sid).transition ++ [⟨m, g.states.length, false⟩] } :=
  node_append_add_self g _ sid _ hs

theorem crcG2_callbacks (cb : String) (g : Gen) (sid : Nat) (m : Matcher) :
    (crcG2 cb g sid m).1.callbacks = g.callbacks := rfl

theorem seqLoopT_extends (chain : List CmdItem) (cb : String) :
    ∀ (items : List CmdItem) (g : Gen) (sid : Nat) (g' : Gen),
      (seqLoopT chain cb g sid items).1 = .ok g' → Extends g g' := by
  intro items
  induction items with
  | nil =>
    intro g sid g' h
    simp only [seqLoopT, Except.ok.injEq] at h
    subst h
    exact extends_refl _
  | cons item rest ih =>
    intro g sid g' h
    cases item with
    | name s => simp [seqLoopT] at h
    | matcher m =>
      cases hn : g.nextOf? sid m with
      | some nid =>
        simp only [seqLoopT, hn] at h
        exact ih g nid g' h
      | none =>
        cases rest with
        | nil =>
          simp only [seqLoopT, hn, List.head?_nil, Except.ok.injEq] at h
          subst h
          exact plainStepGen_extends g sid m
        | cons it rs =>
          cases it with
          | matcher m2 =>
            simp only [seqLoopT, hn, List.head?_cons] at h
            exact extends_trans (plainStepGen_extends g sid m) (ih _ _ g' h)
          | name s2 =>
            simp only [seqLoopT, hn, List.head?_cons] at h
            exact crcStep_extends chain cb g sid m g' h

/-! ## Claim C1: overlapping sibling transitions -/

/-- C1 counterexample.  Two commands at the same state with matchers
`u8(5)` and `u8([5,6])` — overlapping predicates, different
next-states.  The claim says the build is rejected with
ConflictingTransitions; the code has no such check: the build succeeds
and the device state simply keeps both sibling transitions. -/
theorem C1_counterexample :
    exceptIsOk (buildGen exTreeOverlap) = true ∧
    ((okGenT (buildGen exTreeOverlap)).node 1).transition.length = 2 ∧
    ((okGenT (buildGen exTreeOverlap)).node 1).transition.map
      (fun t => t.matcher.value) = [.intVal 5, .intList [5, 6]] :=
  ⟨by rfl, by rfl, by rfl⟩

/-- C1 (amended): during insertion at a state, a matcher that compares
structurally equal to an existing transition's matcher reuses that
transition's next-state (no new state, no error); any other matcher —
overlapping predicates included — is appended as a new sibling
transition, again without any error: the breaking iteration produces the
CRC/terminal pair, a non-breaking one allocates the next state and
recurses. -/
theorem C1_insertion_no_conflict_check (chain : List CmdItem)
    (cb : String) (g : Gen) (sid : Nat) (m : Matcher)
    (rest : List CmdItem) (hs : sid < g.states.length) :
    (∀ nid, g.nextOf? sid m = some nid →
      seqLoopT chain cb g sid (.matcher m :: rest) =
        ((seqLoopT chain cb g nid rest).1,
          sid :: (seqLoopT chain cb g nid rest).2)) ∧
    (g.nextOf? sid m = none →
      ∀ s rs, rest = .name s :: rs →
        (cb = "NOTHING" ∨ (dictGet? cb g.callbacks).isSome = true) →
        ∃ op, seqLoopT chain cb g sid (.matcher m :: rest) =
            (.ok (crcFinish cb (crcG2 cb g sid m).1 g.states.length op),
             [sid, g.states.length]) ∧
          ((crcG2 cb g sid m).1.node sid).transition =
            (g.node sid).transition ++ [⟨m, g.states.length, true⟩]) ∧
    (g.nextOf? sid m = none →
      (rest.head? = none ∨ ∃ m2, rest.head? = some (.matcher m2)) →
      seqLoopT chain cb g sid (.matcher m :: rest) =
        ((seqLoopT chain cb (plainStepGen g sid m).1 g.states.length
            rest).1,
          sid :: (seqLoopT chain cb (plainStepGen g sid m).1
            g.states.length rest).2) ∧
      ((plainStepGen g sid m).1.node sid).transition =
        (g.node sid).transition ++ [⟨m, g.states.length, false⟩]) := by
  refine ⟨?_, ?_, ?_⟩
  · intro nid hn
    simp only [seqLoopT, hn]
  · intro hn s rs hr hcb
    subst hr
    simp only [seqLoopT, hn, List.head?_cons]
    by_cases hno : cb = "NOTHING"
    · refine ⟨none, ?_, by rw [crcG2_node_self cb g sid m hs]⟩
      unfold crcStep
      rw [show crcOpRes chain cb (crcG2 cb g sid m).1.callbacks =
        .ok none from by simp [crcOpRes, hno]]
      rfl
    · have hsome : (dictGet? cb g.callbacks).isSome = true := by
        rcases hcb with hcb | hcb
        · exact absurd hcb hno
        · exact hcb
      obtain ⟨proto, hproto⟩ := Option.isSome_iff_exists.mp hsome
      refine ⟨some ⟨cb, proto, chain⟩, ?_, by rw [crcG2_node_self cb g sid m hs]⟩
      unfold crcStep
      rw [show crcOpRes chain cb (crcG2 cb g sid m).1.callbacks =
        .ok (some ⟨cb, proto, chain⟩) from by
          simp [crcOpRes, hno, crcG2_callbacks, hproto]]
      rfl
  · intro hn hh
    rcases rest with _ | ⟨it, rs⟩
    · refine ⟨?_, by rw [plainStepGen_node_self g sid m hs]⟩
      simp only [seqLoopT, hn, List.head?_nil]
      rfl
    · cases it with
      | name s2 =>
        exfalso
        rcases hh with hh | ⟨m2, hh⟩ <;> simp at hh
      | matcher m2 =>
        refine ⟨?_, by rw [plainStepGen_node_self g sid m hs]⟩
        simp only [seqLoopT, hn, List.head?_cons]
        rfl

/-- C1 witness: the amended theorem applied to the overlapping pair at a
concrete one-state generator. -/
theorem C1_insertion_no_conflict_check_witness :
    0 < exGen0.states.length ∧
    (exGen0.nextOf? 0 (u8list [5, 6]) = none ∧
      ((dictGet? "cbb" exGen0.callbacks).isSome = true) ∧
      ∃ op, seqLoopT [.matcher (u8x 1)] "cbb" exGen0 0
          (.matcher (u8list [5, 6]) :: [.name "cbb"]) =
          (.ok (crcFinish "cbb" (crcG2 "cbb" exGen0 0 (u8list [5, 6])).1
            exGen0.states.length op),
           [0, exGen0.states.length]) ∧
        ((crcG2 "cbb" exGen0 0 (u8list [5, 6])).1.node 0).transition =
          (exGen0.node 0).transition ++
            [⟨u8list [5, 6], exGen0.states.length, true⟩]) := by
  refine ⟨by decide, by decide, by decide, ?_⟩
  exact (C1_insertion_no_conflict_check [.matcher (u8x 1)] "cbb" exGen0 0
    (u8list [5, 6]) [.name "cbb"] (by decide)).2.1 (by decide) "cbb" []
    rfl (Or.inr (by decide))

/-! ## Claim C3: prefix sharing -/

theorem pair_fst_eq {α β : Type} (x : α × β) (a : α) (h : x.1 = a) :
    x = (a, x.2) := by
  cases x
  cases h
  rfl

theorem graphInvB_sound (g : Gen) (h : graphInvB g = true) : GraphInv g := by
  intro i s hget t hmem
  have hi : i < g.states.length := by
    obtain ⟨hlt, -⟩ := List.getElem?_eq_some.mp hget
    exact hlt
  unfold graphInvB at h
  rw [List.all_eq_true] at h
  have hh := h i (List.mem_range.mpr hi)
  rw [hget] at hh
  simp only [List.all_eq_true] at hh
  have := hh t hmem
  simp only [Bool.and_eq_true, decide_eq_true_eq] at this
  exact this

theorem sharedPrefixB_iff (k : Nat) (A B : List CmdItem) :
    sharedPrefixB k A B = true ↔ SharedPrefix k A B := by
  unfold sharedPrefixB SharedPrefix
  simp only [Bool.and_eq_true, decide_eq_true_eq, List.all_eq_true,
    List.mem_range]
  constructor
  · rintro ⟨⟨h1, h2⟩, h3⟩
    refine ⟨h1, h2, fun i hi => ?_⟩
    have := h3 i hi
    cases hA : A[i]? with
    | none => rw [hA] at this; cases this
    | some a =>
      cases a with
      | name s => rw [hA] at this; cases hB : B[i]? <;> rw [hB] at this
        <;> simp at this
      | matcher ma =>
        cases hB : B[i]? with
        | none => rw [hA, hB] at this; cases this
        | some b =>
          cases b with
          | name s => rw [hA, hB] at this; simp at this
          | matcher mb =>
            rw [hA, hB] at this
            exact ⟨ma, mb, rfl, rfl, this⟩
  · rintro ⟨h1, h2, h3⟩
    refine ⟨⟨h1, h2⟩, fun i hi => ?_⟩
    obtain ⟨ma, mb, hA, hB, hm⟩ := h3 i hi
    rw [hA, hB]
    exact hm

theorem sharedPrefix_cons (k : Nat) (A B : List CmdItem)
    (h : SharedPrefix (k + 1) A B) :
    ∃ ma A' mb B', A = .matcher ma :: A' ∧ B = .matcher mb :: B' ∧
      ma.structEq mb = true ∧ SharedPrefix k A' B' := by
  obtain ⟨h1, h2, h3⟩ := h
  obtain ⟨ma, mb, hA0, hB0, hm⟩ := h3 0 (Nat.succ_pos k)
  cases A with
  | nil => simp at hA0
  | cons a A' =>
    cases B with
    | nil => simp at hB0
    | cons b B' =>
      simp only [List.getElem?_cons_zero, Option.some.injEq] at hA0 hB0
      subst hA0
      subst hB0
      refine ⟨ma, A', mb, B', rfl, rfl, hm, ?_⟩
      refine ⟨by simpa using h1, by simpa using h2, fun i hi => ?_⟩
      obtain ⟨ma', mb', hA', hB', hm'⟩ := h3 (i + 1) (by omega)
      simp only [List.getElem?_cons_succ] at hA' hB'
      exact ⟨ma', mb', hA', hB', hm'⟩

theorem crcG2_length (cb : String) (g : Gen) (sid : Nat) (m : Matcher) :
    (crcG2 cb g sid m).1.states.length = g.states.length + 1 := by
  unfold crcG2
  rw [length_addTransition]
  simp [newState_states]

theorem crcG2_nextOf? (cb : String) (g : Gen) (sid : Nat) (m mb : Matcher)
    (hs : sid < g.states.length) (hmiss : g.nextOf? sid m = none)
    (heq : m.structEq mb = true) :
    (crcG2 cb g sid m).1.nextOf? sid mb = some g.states.length :=
  nextOf?_insert_hit g _ sid m mb g.states.length true hs hmiss heq

/-- Core induction for prefix sharing: if command A was inserted from
state `sid` (successfully, with visit trace `trA`), and command B shares
its first `k` matchers structurally, then — after any further extension
of the automaton — B's insertion from the same state visits exactly the
same states for those `k` fields. -/
theorem prefix_trace_aux :
    ∀ (k : Nat) (A : List CmdItem) (g : Gen) (sid : Nat)
      (B chainA chainB : List CmdItem) (cbA cbB : String)
      (gA g' : Gen) (trA : List Nat),
      GraphInv g → sid < g.states.length →
      SharedPrefix k A B →
      seqLoopT chainA cbA g sid A = (.ok gA, trA) →
      Extends gA g' →
      ((seqLoopT chainB cbB g' sid B).2).take (k + 1) =
        trA.take (k + 1) := by
  intro k
  induction k with
  | zero =>
    intro A g sid B chainA chainB cbA cbB gA g' trA hinv hs hk hA hext
    obtain ⟨tlB, hB⟩ := seqLoopT_trace_head chainB cbB g' sid B
    obtain ⟨tlA, hA2⟩ := seqLoopT_trace_head chainA cbA g sid A
    have htrA : trA = sid :: tlA := by
      rw [hA] at hA2
      exact hA2
    rw [hB, htrA]
    simp
  | succ k ih =>
    intro A g sid B chainA chainB cbA cbB gA g' trA hinv hs hk hA hext
    obtain ⟨ma, A', mb, B', hAeq, hBeq, hmeq, hk'⟩ := sharedPrefix_cons k A B hk
    subst hAeq
    subst hBeq
    cases hn : g.nextOf? sid ma with
    | some nid =>
      simp only [seqLoopT, hn] at hA
      rw [Prod.mk.injEq] at hA
      obtain ⟨hA1, hA2⟩ := hA
      have hpair : seqLoopT chainA cbA g nid A' =
          (.ok gA, (seqLoopT chainA cbA g nid A').2) :=
        pair_fst_eq _ _ hA1
      have hbound := nextOf?_some_bounds g sid nid ma hinv hn
      have hextA : Extends g gA := seqLoopT_extends chainA cbA A' g nid gA hA1
      have hgAnext : gA.nextOf? sid ma = some nid :=
        nextOf?_extends g gA sid ma nid hextA hs hn
      have hg'next : g'.nextOf? sid ma = some nid :=
        nextOf?_extends gA g' sid ma nid hext
          (lt_of_lt_of_le hs hextA.1) hgAnext
      have hg'mb : g'.nextOf? sid mb = some nid := by
        rw [← nextOf?_congr g' sid ma mb hmeq]
        exact hg'next
      simp only [seqLoopT, hg'mb]
      rw [← hA2]
      simp only [List.take_succ_cons]
      congr 1
      exact ih A' g nid B' chainA chainB cbA cbB gA g' _ hinv hbound.2 hk'
        hpair hext
    | none =>
      cases A' with
      | nil =>
        have hk0 : k = 0 := by
          obtain ⟨h1, -, -⟩ := hk'
          simpa using h1
        subst hk0
        simp only [seqLoopT, hn, List.head?_nil] at hA
        rw [Prod.mk.injEq] at hA
        obtain ⟨hA1, hA2⟩ := hA
        simp only [seqLoopT, Except.ok.injEq] at hA1
        have hgAeq : gA = (plainStepGen g sid ma).1 := hA1.symm
        have h1 : (plainStepGen g sid ma).1.nextOf? sid mb =
            some g.states.length :=
          plainStepGen_nextOf? g sid ma mb hs hn hmeq
        have h2 : g'.nextOf? sid mb = some g.states.length := by
          refine nextOf?_extends _ g' sid mb g.states.length ?_ ?_ h1
          · rw [← hgAeq]; exact hext
          · rw [plainStepGen_length]; omega
        simp only [seqLoopT, h2]
        obtain ⟨tl2, htl2⟩ :=
          seqLoopT_trace_head chainB cbB g' g.states.length B'
        rw [htl2, ← hA2]
        simp only [List.take_succ_cons, List.take_zero]
        rw [plainStepGen_idx]
      | cons a2 A'' =>
        cases a2 with
        | name s2 =>
          have hk0 : k = 0 := by
            by_contra hne
            obtain ⟨ma', mb', hA1', -, -⟩ := hk'.2.2 0 (by omega)
            simp at hA1'
          subst hk0
          simp only [seqLoopT, hn, List.head?_cons] at hA
          unfold crcStep at hA
          cases hop : crcOpRes chainA cbA
              (crcG2 cbA g sid ma).1.callbacks with
          | error e => rw [hop] at hA; rw [Prod.mk.injEq] at hA
                       exact absurd hA.1 (by simp)
          | ok op =>
            rw [hop] at hA
            rw [Prod.mk.injEq] at hA
            obtain ⟨hA1, hA2⟩ := hA
            simp only [Except.ok.injEq] at hA1
            have h1 : (crcG2 cbA g sid ma).1.nextOf? sid mb =
                some g.states.length :=
              crcG2_nextOf? cbA g sid ma mb hs hn hmeq
            have hcg : Extends (crcG2 cbA g sid ma).1 gA := by
              rw [← hA1]
              exact crcFinish_extends cbA _ _ op
            have h2 : gA.nextOf? sid mb = some g.states.length := by
              refine nextOf?_extends _ gA sid mb g.states.length hcg ?_ h1
              rw [crcG2_length]
              omega
            have h3 : g'.nextOf? sid mb = some g.states.length := by
              refine nextOf?_extends gA g' sid mb g.states.length hext ?_ h2
              have := hcg.1
              rw [crcG2_length] at this
              omega
            simp only [seqLoopT, h3]
            obtain ⟨tl2, htl2⟩ :=
              seqLoopT_trace_head chainB cbB g' g.states.length B'
            rw [htl2, ← hA2]
            rw [crcG2_idx]
            simp
        | matcher a2m =>
          simp only [seqLoopT, hn, List.head?_cons] at hA
          rw [Prod.mk.injEq] at hA
          obtain ⟨hA1, hA2⟩ := hA
          have hpair : seqLoopT chainA cbA (plainStepGen g sid ma).1
              (plainStepGen g sid ma).2 (.matcher a2m :: A'') =
              (.ok gA, (seqLoopT chainA cbA (plainStepGen g sid ma).1
                (plainStepGen g sid ma).2 (.matcher a2m :: A'')).2) :=
            pair_fst_eq _ _ hA1
          have h1 : (plainStepGen g sid ma).1.nextOf? sid mb =
              some g.states.length :=
            plainStepGen_nextOf? g sid ma mb hs hn hmeq
          have hextA : Extends (plainStepGen g sid ma).1 gA :=
            seqLoopT_extends chainA cbA (.matcher a2m :: A'') _ _ gA hA1
          have h2 : gA.nextOf? sid mb = some g.states.length := by
            refine nextOf?_extends _ gA sid mb g.states.length hextA ?_ h1
            rw [plainStepGen_length]
            omega
          have h3 : g'.nextOf? sid mb = some g.states.length := by
            refine nextOf?_extends gA g' sid mb g.states.length hext ?_ h2
            have := hextA.1
            rw [plainStepGen_length] at this
            omega
          simp only [seqLoopT, h3]
          rw [← hA2]
          simp only [List.take_succ_cons]
          congr 1
          have hinv2 : GraphInv (plainStepGen g sid ma).1 :=
            plainStepGen_graphInv g sid ma hinv hs
          have hs2 : (plainStepGen g sid ma).2 <
              (plainStepGen g sid ma).1.states.length := by
            rw [plainStepGen_idx, plainStepGen_length]
            omega
          have := ih (.matcher a2m :: A'') (plainStepGen g sid ma).1
            (plainStepGen g sid ma).2 B' chainA chainB cbA cbB gA g' _
            hinv2 hs2 hk' hpair hext
          rw [plainStepGen_idx] at this
          exact this

/-- C3: prefix sharing.  If command A was inserted from a state of a
well-formed automaton, and command B agrees with A structurally on its
first `k` matchers, then B's later insertion from the same state — on
that automaton or any extension of it produced by further insertions —
visits exactly the states A's insertion visited for those `k` fields:
it descends through existing structurally-equal transitions and only
diverges afterwards. -/
theorem C3_prefix_sharing (k : Nat) (A B chainA chainB : List CmdItem)
    (cbA cbB : String) (g gA g' : Gen) (sid : Nat) (trA : List Nat)
    (hinv : graphInvB g = true) (hs : sid < g.states.length)
    (hk : sharedPrefixB k A B = true)
    (hA : seqLoopT chainA cbA g sid A = (.ok gA, trA))
    (hext : Extends gA g') :
    ((seqLoopT chainB cbB g' sid B).2).take (k + 1) = trA.take (k + 1) :=
  prefix_trace_aux k A g sid B chainA chainB cbA cbB gA g' trA
    (graphInvB_sound g hinv) hs ((sharedPrefixB_iff k A B).mp hk) hA hext

/-- C3 witness: two concrete commands sharing one leading matcher,
inserted in sequence into the one-state generator. -/
theorem C3_prefix_sharing_witness :
    graphInvB exGen0 = true ∧
    sharedPrefixB 1 c3A c3B = true ∧
    ((seqLoopT [] "cbb" (okGen (seqLoopT [] "cba" exGen0 0 c3A).1) 0
        c3B).2).take 2 =
      ((seqLoopT [] "cba" exGen0 0 c3A).2).take 2 :=
  ⟨by decide, by decide,
    C3_prefix_sharing 1 c3A c3B [] [] "cba" "cbb" exGen0
      (okGen (seqLoopT [] "cba" exGen0 0 c3A).1)
      (okGen (seqLoopT [] "cba" exGen0 0 c3A).1) 0
      (seqLoopT [] "cba" exGen0 0 c3A).2
      (by decide) (by decide) (by decide) (by rfl) (extends_refl _)⟩


/-! ## Field preservation along the graph construction -/

theorem fieldsEq_refl (g : Gen) : FieldsEq g g :=
  ⟨rfl, rfl, rfl, rfl, rfl, rfl, rfl, rfl⟩

theorem fieldsEq_trans {a b c : Gen} (h1 : FieldsEq a b)
    (h2 : FieldsEq b c) : FieldsEq a c := by
  obtain ⟨a1, a2, a3, a4, a5, a6, a7, a8⟩ := h1
  obtain ⟨b1, b2, b3, b4, b5, b6, b7, b8⟩ := h2
  exact ⟨a1.trans b1, a2.trans b2, a3.trans b3, a4.trans b4, a5.trans b5,
    a6.trans b6, a7.trans b7, a8.trans b8⟩

theorem fieldsEq_plainStepGen (g : Gen) (sid : Nat) (m : Matcher) :
    FieldsEq g (plainStepGen g sid m).1 :=
  ⟨rfl, rfl, rfl, rfl, rfl, rfl, rfl, rfl⟩

theorem fieldsEq_crcStep (chain : List CmdItem) (cb : String) (g : Gen)
    (sid : Nat) (m : Matcher) (g' : Gen)
    (h : (crcStep chain cb g sid m).1 = .ok g') : FieldsEq g g' := by
  unfold crcStep at h
  cases hop : crcOpRes chain cb (crcG2 cb g sid m).1.callbacks with
  | error e => rw [hop] at h; simp at h
  | ok op =>
    rw [hop] at h
    simp only [Except.ok.injEq] at h
    subst h
    exact ⟨rfl, rfl, rfl, rfl, rfl, rfl, rfl, rfl⟩

theorem fieldsEq_seqLoopT (chain : List CmdItem) (cb : String) :
    ∀ (items : List CmdItem) (g : Gen) (sid : Nat) (g' : Gen),
      (seqLoopT chain cb g sid items).1 = .ok g' → FieldsEq g g' := by
  intro items
  induction items with
  | nil =>
    intro g sid g' h
    simp only [seqLoopT, Except.ok.injEq] at h
    subst h
    exact fieldsEq_refl _
  | cons item rest ih =>
    intro g sid g' h
    cases item with
    | name s => simp [seqLoopT] at h
    | matcher m =>
      cases hn : g.nextOf? sid m with
      | some nid =>
        simp only [seqLoopT, hn] at h
        exact ih g nid g' h
      | none =>
        cases rest with
        | nil =>
          simp only [seqLoopT, hn, List.head?_nil, Except.ok.injEq] at h
          subst h
          exact fieldsEq_plainStepGen g sid m
        | cons it rs =>
          cases it with
          | matcher m2 =>
            simp only [seqLoopT, hn, List.head?_cons] at h
            exact fieldsEq_trans (fieldsEq_plainStepGen g sid m)
              (ih _ _ g' h)
          | name s2 =>
            simp only [seqLoopT, hn, List.head?_cons] at h
            exact fieldsEq_crcStep chain cb g sid m g' h

theorem fieldsEq_processSeq (g : Gen) (addrM : Matcher) (sid : Nat)
    (cmd : Cmd) (g' : Gen) (h : (processSeq g addrM sid cmd).1 = .ok g') :
    FieldsEq g g' := by
  unfold processSeq at h
  split at h
  · simp at h
  · split at h
    · simp at h
    · exact fieldsEq_seqLoopT _ _ cmd g sid g' h
  · exact fieldsEq_seqLoopT _ "NOTHING" _ g sid g' h

theorem fieldsEq_foldCmds (addrM : Matcher) (sid : Nat) :
    ∀ (cmds : List Cmd) (g : Gen) (g' : Gen),
      foldCmds g addrM sid cmds = .ok g' → FieldsEq g g' := by
  intro cmds
  induction cmds with
  | nil =>
    intro g g' h
    simp only [foldCmds, List.foldlM, pure, Except.pure,
      Except.ok.injEq] at h
    subst h
    exact fieldsEq_refl _
  | cons c cs ih =>
    intro g g' h
    simp only [foldCmds, List.foldlM, bind, Except.bind] at h
    cases hstep : (processSeq g addrM sid c).1 with
    | error e =>
      rw [hstep] at h
      simp at h
    | ok g1 =>
      rw [hstep] at h
      exact fieldsEq_trans (fieldsEq_processSeq g addrM sid c g1 hstep)
        (ih g1 g' h)

theorem fieldsEq_handleDeviceKey (rootId : Nat) (g : Gen)
    (kv : String × List Cmd) (g' : Gen)
    (h : handleDeviceKey rootId g kv = .ok g') : FieldsEq g g' := by
  unfold handleDeviceKey at h
  split at h
  · have h2 := fieldsEq_foldCmds _ _ kv.2 _ g' h
    exact fieldsEq_trans ⟨rfl, rfl, rfl, rfl, rfl, rfl, rfl, rfl⟩ h2
  · split at h
    · split at h
      · simp at h
      · split at h
        · simp at h
        · split at h
          · simp at h
          · have h2 := fieldsEq_foldCmds _ _ kv.2 _ g' h
            exact fieldsEq_trans
              ⟨rfl, rfl, rfl, rfl, rfl, rfl, rfl, rfl⟩ h2
    · simp only [Except.ok.injEq] at h
      subst h
      exact fieldsEq_refl _

theorem fieldsEq_foldDevices (rootId : Nat) :
    ∀ (devs : List (String × List Cmd)) (g : Gen) (g' : Gen),
      devs.foldlM (handleDeviceKey rootId) g = .ok g' → FieldsEq g g' := by
  intro devs
  induction devs with
  | nil =>
    intro g g' h
    simp only [List.foldlM, pure, Except.pure, Except.ok.injEq] at h
    subst h
    exact fieldsEq_refl _
  | cons kv kvs ih =>
    intro g g' h
    simp only [List.foldlM, bind, Except.bind] at h
    cases hstep : handleDeviceKey rootId g kv with
    | error e => rw [hstep] at h; simp at h
    | ok g1 =>
      rw [hstep] at h
      exact fieldsEq_trans (fieldsEq_handleDeviceKey rootId g kv g1 hstep)
        (ih g1 g' h)

theorem fieldsEq_processDevices (g0 : Gen) (devs : List (String × List Cmd))
    (g : Gen) (h : processDevices g0 devs = .ok g) : FieldsEq g0 g := by
  unfold processDevices at h
  have h2 := fieldsEq_foldDevices _ devs _ g h
  exact fieldsEq_trans ⟨rfl, rfl, rfl, rfl, rfl, rfl, rfl, rfl⟩ h2


/-! ## Shape of a successful build -/

/-- What a successful `buildGen` guarantees about the resulting
generator's scalar fields and the returned tree. -/
theorem buildGen_ok_fields (tree : Tree) (g : Gen) (t' : Tree)
    (h : buildGen tree = .ok (g, t')) :
    g.maxBufSize =
      max (computeBufSize tree.devices + 4) (tree.bufferSize.getD 0) ∧
    g.identification = tree.identification ∧
    g.slaveId = tree.slaveId.getD 0xFF ∧
    g.mode = tree.mode.getD "slave" ∧
    g.onReadyReply = tree.onReceived ∧
    ∃ cbsIn cbs res,
      tree.callbacks = some cbsIn ∧ processCallbacks cbsIn = .ok cbs ∧
      identExtension tree (tree.mode.getD "slave") cbs = .ok res ∧
      g.callbacks = res.1 ∧ g.conformityLevel = res.2.1 ∧
      t' = res.2.2 := by
  unfold buildGen at h
  split at h
  · simp at h
  · rename_i cbsIn hcbs
    split at h
    · simp at h
    · rename_i cbs hproc
      split at h
      · simp at h
      · split at h
        · simp at h
        · rename_i res hident
          split at h
          · simp at h
          · rename_i gfin hdev
            simp only [Except.ok.injEq, Prod.mk.injEq] at h
            obtain ⟨hg, ht⟩ := h
            subst hg
            subst ht
            have hf := fieldsEq_processDevices _ res.2.2.devices gfin hdev
            obtain ⟨f1, f2, f3, f4, f5, f6, f7, f8⟩ := hf
            refine ⟨by rw [← f2]; rfl, by rw [← f6]; rfl,
              by rw [← f5]; rfl, by rw [← f3]; rfl, by rw [← f8]; rfl,
              cbsIn, cbs, res, hcbs, hproc, hident,
              by rw [← f1]; rfl, by rw [← f7]; rfl, rfl⟩

/-! ## Claim C5: buffer sizing -/

theorem inner_fold_mono (cmds : List Cmd) :
    ∀ acc : Nat, acc ≤ cmds.foldl (fun a c => max a (cmdIntSize c)) acc := by
  induction cmds with
  | nil => intro acc; exact le_refl _
  | cons c cs ih =>
    intro acc
    rw [List.foldl_cons]
    exact le_trans (Nat.le_max_left acc (cmdIntSize c)) (ih _)

theorem inner_fold_mem (cmds : List Cmd) :
    ∀ (acc : Nat) (c : Cmd), c ∈ cmds →
      cmdIntSize c ≤ cmds.foldl (fun a x => max a (cmdIntSize x)) acc := by
  induction cmds with
  | nil => intro acc c hc; cases hc
  | cons c0 cs ih =>
    intro acc c hc
    rw [List.foldl_cons]
    rcases List.mem_cons.mp hc with hc | hc
    · subst hc
      exact le_trans (Nat.le_max_right acc (cmdIntSize c))
        (inner_fold_mono cs _)
    · exact ih _ c hc

theorem computeBufSize_acc_mono (devs : List (String × List Cmd)) :
    ∀ acc : Nat, acc ≤ devs.foldl
      (fun acc kv => if isDecDeviceKey kv.1 then
        kv.2.foldl (fun a c => max a (cmdIntSize c)) acc else acc) acc := by
  induction devs with
  | nil => intro acc; exact le_refl _
  | cons kv kvs ih =>
    intro acc
    rw [List.foldl_cons]
    refine le_trans ?_ (ih _)
    by_cases hk : isDecDeviceKey kv.1 = true
    · rw [if_pos hk]; exact inner_fold_mono kv.2 acc
    · rw [if_neg hk]

theorem computeBufSize_covers (devs : List (String × List Cmd)) :
    ∀ (acc : Nat) (key : String) (cmds : List Cmd) (c : Cmd),
      (key, cmds) ∈ devs → isDecDeviceKey key = true → c ∈ cmds →
      cmdIntSize c ≤ devs.foldl
        (fun acc kv => if isDecDeviceKey kv.1 then
          kv.2.foldl (fun a x => max a (cmdIntSize x)) acc else acc) acc := by
  induction devs with
  | nil => intro acc key cmds c hmem; cases hmem
  | cons kv kvs ih =>
    intro acc key cmds c hmem hkey hc
    rw [List.foldl_cons]
    rcases List.mem_cons.mp hmem with hmem | hmem
    · rw [← hmem]
      rw [if_pos hkey]
      exact le_trans (inner_fold_mem cmds acc c hc)
        (computeBufSize_acc_mono kvs _)
    · exact ih _ key cmds c hmem hkey hc

/-- C5 counterexample.  With identification active, the user command is
tiny (one u8 function code), so the emitted buffer size is
1 + 4 = 5; yet the accepted build contains the injected synthetic
Diagnostics command, whose matcher sizes sum to 5 — it would need
5 + 4 = 9 bytes.  The buffer loop ran before the injection (and its
regex also skips hex `device@0x...` keys), so the claim's bound fails
for the synthetic commands of this accepted build. -/
theorem C5_counterexample :
    exceptIsOk (buildGen exTreeIdent) = true ∧
    (okGenT (buildGen exTreeIdent)).maxBufSize = 5 ∧
    dictGet? "device@1" (okTree (buildGen exTreeIdent)).devices =
      some [[.matcher (u8x 3), .name "on_x"],
        reportSlaveIdCmd, readDeviceIdCmd, diagnosticsCmd] ∧
    cmdIntSize diagnosticsCmd + 4 = 9 :=
  ⟨by rfl, by rfl, by rfl, by rfl⟩

/-- C5 (amended): the emitted buffer size covers the user-supplied floor
and every command present in the ORIGINAL tree under a key matching
`^device(@\d+)?$` (bare `device` or decimal `device@<n>`).  Commands
under hex `device@0x...` keys and the three synthetic identification
commands are NOT counted: the buffer loop's regex rejects hex keys and
runs before the injection. -/
theorem C5_buffer_sizing (tree : Tree) (g : Gen) (t' : Tree)
    (h : buildGen tree = .ok (g, t')) :
    tree.bufferSize.getD 0 ≤ g.maxBufSize ∧
    ∀ key cmds c, (key, cmds) ∈ tree.devices →
      isDecDeviceKey key = true → c ∈ cmds →
      cmdIntSize c + 4 ≤ g.maxBufSize := by
  obtain ⟨hbuf, -⟩ := buildGen_ok_fields tree g t' h
  rw [hbuf]
  constructor
  · exact Nat.le_max_right _ _
  · intro key cmds c hmem hkey hc
    refine le_trans ?_ (Nat.le_max_left _ _)
    have := computeBufSize_covers tree.devices 0 key cmds c hmem hkey hc
    unfold computeBufSize
    omega

/-- C5 witness: the single-command tree; its one declared command fits,
and the floor (absent, 0) is respected. -/
theorem C5_buffer_sizing_witness :
    buildGen exTreeS1 = .ok (okGenT (buildGen exTreeS1),
      okTree (buildGen exTreeS1)) ∧
    (exTreeS1.bufferSize.getD 0 ≤ (okGenT (buildGen exTreeS1)).maxBufSize ∧
     ∀ key cmds c, (key, cmds) ∈ exTreeS1.devices →
       isDecDeviceKey key = true → c ∈ cmds →
       cmdIntSize c + 4 ≤ (okGenT (buildGen exTreeS1)).maxBufSize) :=
  ⟨by rfl, C5_buffer_sizing exTreeS1 _ _ (by rfl)⟩

/-! ## Claim C7: identification without PRODUCT_CODE -/

/-- C7 counterexample.  A tree whose `identification` mapping declares
only MODEL_NAME builds successfully: no MissingProductCode error exists;
the identification block is skipped (conformity level 0) and the tree is
untouched. -/
theorem C7_counterexample :
    exceptIsOk (buildGen exTreeNoPC) = true ∧
    (okGenT (buildGen exTreeNoPC)).conformityLevel = 0 ∧
    okTree (buildGen exTreeNoPC) = exTreeNoPC :=
  ⟨by rfl, by rfl, by rfl⟩

/-- C7 (amended): an identification mapping lacking PRODUCT_CODE is
silently ignored, not rejected: the build proceeds as if identification
were absent — conformity level 0, no synthetic commands, the tree
returned unchanged (its keys are not even validated). -/
theorem C7_missing_product_code_ignored (tree : Tree) (g : Gen)
    (t' : Tree) (hpc : dictGet? PRODUCT_CODE tree.identification = none)
    (h : buildGen tree = .ok (g, t')) :
    g.conformityLevel = 0 ∧ t' = tree := by
  obtain ⟨-, -, -, -, -, cbsIn, cbs, res, hcbs, hproc, hident, -, hconf,
    ht⟩ := buildGen_ok_fields tree g t' h
  unfold identExtension at hident
  have hcond : ¬ (tree.mode.getD "slave" = "slave" ∧
      (dictGet? PRODUCT_CODE tree.identification).isSome = true) := by
    rw [hpc]
    simp
  rw [if_neg hcond] at hident
  simp only [Except.ok.injEq] at hident
  constructor
  · rw [hconf, ← hident]
  · rw [ht, ← hident]

/-- C7 witness: the amended theorem at the MODEL_NAME-only tree. -/
theorem C7_missing_product_code_ignored_witness :
    dictGet? PRODUCT_CODE exTreeNoPC.identification = none ∧
    buildGen exTreeNoPC = .ok (okGenT (buildGen exTreeNoPC),
      okTree (buildGen exTreeNoPC)) ∧
    ((okGenT (buildGen exTreeNoPC)).conformityLevel = 0 ∧
      okTree (buildGen exTreeNoPC) = exTreeNoPC) :=
  ⟨by rfl, by rfl,
    C7_missing_product_code_ignored exTreeNoPC _ _ (by rfl) (by rfl)⟩

/-! ## Claim C9: the Report Slave ID reply -/

theorem dictGet?_mem {α β : Type} [DecidableEq α] (k : α) (v : β) :
    ∀ l : List (α × β), dictGet? k l = some v → (k, v) ∈ l := by
  intro l
  induction l with
  | nil => intro h; simp [dictGet?] at h
  | cons kv kvs ih =>
    intro h
    unfold dictGet? at h
    split at h
    · rename_i heq
      simp only [Option.some.injEq] at h
      subst h
      subst heq
      exact List.mem_cons_self _ _
    · exact List.mem_cons_of_mem _ (ih h)

theorem conformityFoldFrom_ge (mode : String) :
    ∀ (ident : List (Nat × String)) (acc conf : Nat),
      conformityFoldFrom mode acc ident = .ok conf →
      acc ≤ conf ∧ ∀ k v cat, (k, v) ∈ ident → meiCategory k = some cat →
        cat ≤ conf := by
  intro ident
  induction ident with
  | nil =>
    intro acc conf h
    simp only [conformityFoldFrom, Except.ok.injEq] at h
    subst h
    exact ⟨le_refl _, fun k v cat hmem => absurd hmem (by simp)⟩
  | cons kv kvs ih =>
    intro acc conf h
    unfold conformityFoldFrom at h
    split at h
    · simp at h
    · rename_i cat0 hcat0
      obtain ⟨hacc, hmem⟩ := ih (max acc cat0) conf h
      refine ⟨le_trans (Nat.le_max_left _ _) hacc, ?_⟩
      intro k v cat hm hcat
      rcases List.mem_cons.mp hm with hm | hm
      · have hk : kv.1 = k := by rw [← hm]
        rw [hk, hcat] at hcat0
        injection hcat0 with hc
        subst hc
        exact le_trans (Nat.le_max_right acc cat) hacc
      · exact hmem k v cat hm hcat

/-- C9: with identification active (slave mode, PRODUCT_CODE declared,
successful build), the function-17 reply packs, after the two-byte
reset, exactly: a byte count of 2 plus the identifier's length, the
configured slave id, the constant 0xFF, and the identifier string —
the product code suffixed with an underscore and the model name exactly
when MODEL_NAME is declared (`identString`). -/
theorem C9_report_slave_id (tree : Tree) (g : Gen) (t' : Tree)
    (pc : String) (h : buildGen tree = .ok (g, t'))
    (hmode : tree.mode.getD "slave" = "slave")
    (hpc : dictGet? PRODUCT_CODE tree.identification = some pc) :
    getReportSlaveId g = .ok (some [.setSize 2,
      .u8v ((identString tree.identification pc).length + 2),
      .u8v (tree.slaveId.getD 0xFF), .u8v 0xFF,
      .str (identString tree.identification pc)]) := by
  obtain ⟨-, hid, hsid, -, -, cbsIn, cbs, res, hcbs, hproc, hident, -,
    hconf, -⟩ := buildGen_ok_fields tree g t' h
  have hcond : tree.mode.getD "slave" = "slave" ∧
      (dictGet? PRODUCT_CODE tree.identification).isSome = true :=
    ⟨hmode, by rw [hpc]; rfl⟩
  unfold identExtension at hident
  rw [if_pos hcond] at hident
  split at hident
  · exact absurd hident (by simp)
  · split at hident
    · exact absurd hident (by simp)
    · rename_i conf hfold
      simp only [Except.ok.injEq] at hident
      have hgc : g.conformityLevel = conf := by rw [hconf, ← hident]
      have hconf1 : 1 ≤ conf := by
        unfold conformityFold at hfold
        have hm := dictGet?_mem PRODUCT_CODE pc tree.identification hpc
        exact (conformityFoldFrom_ge _ tree.identification 0 conf
          hfold).2 PRODUCT_CODE pc 1 hm (by rfl)
      have hne : ¬ g.conformityLevel = 0 := by omega
      unfold getReportSlaveId
      rw [if_neg hne, hid, hpc, hsid]

/-- C9 witness: the identification tree with product code "PC" and model
name "MX" packs `[set_size 2, 7, 0xFF, 0xFF, "PC_MX"]`
(byte count 7 = len("PC_MX") + 2; the default slave id is 0xFF). -/
theorem C9_report_slave_id_witness :
    buildGen exTreeIdent = .ok (okGenT (buildGen exTreeIdent),
      okTree (buildGen exTreeIdent)) ∧
    exTreeIdent.mode.getD "slave" = "slave" ∧
    dictGet? PRODUCT_CODE exTreeIdent.identification = some "PC" ∧
    getReportSlaveId (okGenT (buildGen exTreeIdent)) = .ok (some
      [.setSize 2,
       .u8v ((identString exTreeIdent.identification "PC").length + 2),
       .u8v (exTreeIdent.slaveId.getD 0xFF), .u8v 0xFF,
       .str (identString exTreeIdent.identification "PC")]) :=
  ⟨by rfl, by rfl, by rfl,
    C9_report_slave_id exTreeIdent _ _ "PC" (by rfl) (by rfl) (by rfl)⟩

/-! ## Claim C10: the build mutates its input tree -/

/-- C10 counterexample.  Constructing the generator from the
identification-bearing tree returns a mutated tree: the chosen device's
command list has grown by the three synthetic commands, so the tree is
not the same after construction as before. -/
theorem C10_counterexample :
    exceptIsOk (buildGen exTreeIdent) = true ∧
    okTree (buildGen exTreeIdent) ≠ exTreeIdent :=
  ⟨by rfl, by decide⟩

/-- C10 (amended): construction is NOT pure with respect to its input
tree.  When identification is active (slave mode and PRODUCT_CODE
declared), the returned tree is the input with the three synthetic
commands appended to the chosen device key's list; otherwise the tree
comes back unchanged.  (The source also writes each processed matcher's
`pos` attribute, a write-only field.) -/
theorem C10_tree_mutation (tree : Tree) (g : Gen) (t' : Tree)
    (h : buildGen tree = .ok (g, t')) :
    (¬ (tree.mode.getD "slave" = "slave" ∧
        (dictGet? PRODUCT_CODE tree.identification).isSome = true) →
      t' = tree) ∧
    ((tree.mode.getD "slave" = "slave" ∧
        (dictGet? PRODUCT_CODE tree.identification).isSome = true) →
      ∃ target, findDeviceTarget tree = .ok target ∧
        t' = { tree with devices := (appendCmds tree.devices target
          [reportSlaveIdCmd, readDeviceIdCmd, diagnosticsCmd]) }) := by
  obtain ⟨-, -, -, -, -, cbsIn, cbs, res, hcbs, hproc, hident, -, -,
    ht⟩ := buildGen_ok_fields tree g t' h
  unfold identExtension at hident
  constructor
  · intro hcond
    rw [if_neg hcond] at hident
    simp only [Except.ok.injEq] at hident
    rw [ht, ← hident]
  · intro hcond
    rw [if_pos hcond] at hident
    split at hident
    · exact absurd hident (by simp)
    · rename_i target htarget
      split at hident
      · exact absurd hident (by simp)
      · simp only [Except.ok.injEq] at hident
        exact ⟨target, htarget, by rw [ht, ← hident]⟩

/-- C10 witness: the amended theorem at the identification tree; the
chosen device is `device@1` and its list grows by the three synthetic
commands. -/
theorem C10_tree_mutation_witness :
    buildGen exTreeIdent = .ok (okGenT (buildGen exTreeIdent),
      okTree (buildGen exTreeIdent)) ∧
    ((¬ (exTreeIdent.mode.getD "slave" = "slave" ∧
        (dictGet? PRODUCT_CODE exTreeIdent.identification).isSome = true) →
      okTree (buildGen exTreeIdent) = exTreeIdent) ∧
    ((exTreeIdent.mode.getD "slave" = "slave" ∧
        (dictGet? PRODUCT_CODE exTreeIdent.identification).isSome = true) →
      ∃ target, findDeviceTarget exTreeIdent = .ok target ∧
        okTree (buildGen exTreeIdent) =
          { exTreeIdent with devices :=
              (appendCmds exTreeIdent.devices target
                [reportSlaveIdCmd, readDeviceIdCmd, diagnosticsCmd]) })) :=
  ⟨by rfl, C10_tree_mutation exTreeIdent _ _ (by rfl)⟩

/-! ## Claim C6: the CLI outcome -/

/-- C6 counterexample.  On the builder error "Callbacks are required"
the CLI prints the `Error: ` line on standard OUTPUT (not stderr) and
exits 0 (the exception is caught, `main` returns normally) — the claim
asserts stderr and a non-zero exit code. -/
theorem C6_counterexample :
    runCLI exTreeEmpty none =
      { stdout := [.errorLine "Error: Callbacks are required"],
        stderr := [], exitCode := 0, written := [] } := by
  rfl

/-- C6 (amended): a ParsingException is caught and reported as a single
`Error: <message>` line on standard output with exit status 0 and no
artifact written; a successful run exits 0 (writing the artifact to the
output file, else printing it on stdout); any non-ParsingException
failure escapes as a traceback on stderr with exit status 1. -/
theorem C6_cli_outcome (tree : Tree) (out : Option String) :
    (∀ msg, buildAndRender tree = .error (.parsing msg) →
      runCLI tree out =
        { stdout := [.errorLine ("Error: " ++ msg)], stderr := [],
          exitCode := 0, written := [] }) ∧
    (∀ r, buildAndRender tree = .ok r →
      (runCLI tree out).exitCode = 0 ∧ (runCLI tree out).stderr = [] ∧
      (out = none → (runCLI tree out).stdout = [.generatedCode]) ∧
      (∀ p, out = some p → (runCLI tree out).written = [p])) ∧
    (∀ e, buildAndRender tree = .error e → (∀ msg, e ≠ .parsing msg) →
      runCLI tree out =
        { stdout := [], stderr := [.traceback], exitCode := 1,
          written := [] }) := by
  refine ⟨?_, ?_, ?_⟩
  · intro msg hmsg
    unfold runCLI
    rw [hmsg]
  · intro r hr
    unfold runCLI
    rw [hr]
    cases out with
    | none => exact ⟨rfl, rfl, fun _ => rfl, fun p hp => by cases hp⟩
    | some p =>
      refine ⟨rfl, rfl, ?_, ?_⟩
      · intro hn
        cases hn
      · intro p' hp'
        injection hp' with he
        rw [he]
  · intro e he hne
    unfold runCLI
    rw [he]
    cases e with
    | parsing msg => exact absurd rfl (hne msg)
    | valueError => rfl
    | attributeError => rfl
    | indexError => rfl
    | keyError => rfl

/-! ## Claim C8: state name uniqueness -/

theorem natDigitsAux_eq_digits :
    ∀ fuel n, n ≤ fuel → natDigitsAux fuel n = Nat.digits 10 n := by
  intro fuel
  induction fuel with
  | zero =>
    intro n hn
    rw [show n = 0 by omega]
    simp [natDigitsAux]
  | succ f ih =>
    intro n hn
    unfold natDigitsAux
    by_cases h0 : n = 0
    · subst h0
      simp
    · rw [if_neg h0, Nat.digits_def' (by omega : (1:ℕ) < 10)
        (Nat.pos_of_ne_zero h0), ih (n / 10) (by omega)]

theorem natToDigitsLE_eq (n : Nat) : natToDigitsLE n = Nat.digits 10 n :=
  natDigitsAux_eq_digits n n (le_refl n)

theorem digitChar_inj :
    ∀ d, d < 10 → ∀ e, e < 10 → digitChar d = digitChar e → d = e := by
  decide

theorem map_digitChar_inj :
    ∀ l₁ l₂ : List Nat, (∀ d ∈ l₁, d < 10) → (∀ d ∈ l₂, d < 10) →
      l₁.map digitChar = l₂.map digitChar → l₁ = l₂ := by
  intro l₁
  induction l₁ with
  | nil =>
    intro l₂ h1 h2 h
    cases l₂ with
    | nil => rfl
    | cons b bs => simp at h
  | cons a as ih =>
    intro l₂ h1 h2 h
    cases l₂ with
    | nil => simp at h
    | cons b bs =>
      simp only [List.map_cons, List.cons.injEq] at h
      have ha : a = b := digitChar_inj a (h1 a (by simp)) b
        (h2 b (by simp)) h.1
      have hs : as = bs := ih bs (fun d hd => h1 d (by simp [hd]))
        (fun d hd => h2 d (by simp [hd])) h.2
      rw [ha, hs]

theorem natStr_inj : ∀ m n : Nat, natStr m = natStr n → m = n := by
  have key : ∀ n : Nat, n ≠ 0 → natStr n =
      ⟨((Nat.digits 10 n).reverse.map digitChar)⟩ := by
    intro n hn
    unfold natStr
    rw [if_neg hn, natToDigitsLE_eq]
  have digLt : ∀ n : Nat, ∀ d ∈ (Nat.digits 10 n).reverse, d < 10 := by
    intro n d hd
    exact Nat.digits_lt_base (by omega) (List.mem_reverse.mp hd)
  intro m n h
  by_cases hm : m = 0 <;> by_cases hn : n = 0
  · rw [hm, hn]
  · exfalso
    rw [hm, key n hn] at h
    have hdata : ([0] : List Nat).map digitChar =
        (Nat.digits 10 n).reverse.map digitChar := congrArg String.data h
    have h0 : ([0] : List Nat) = (Nat.digits 10 n).reverse :=
      map_digitChar_inj _ _ (by intro d hd; simp at hd; omega)
        (digLt n) hdata
    have hdig : Nat.digits 10 n = [0] := by
      have h1 := congrArg List.reverse h0
      simpa using h1.symm
    have h2 := Nat.ofDigits_digits 10 n
    rw [hdig] at h2
    simp [Nat.ofDigits] at h2
    exact hn h2.symm
  · exfalso
    rw [hn, key m hm] at h
    have hdata : (Nat.digits 10 m).reverse.map digitChar =
        ([0] : List Nat).map digitChar := congrArg String.data h
    have h0 : (Nat.digits 10 m).reverse = ([0] : List Nat) :=
      map_digitChar_inj _ _ (digLt m)
        (by intro d hd; simp at hd; omega) hdata
    have hdig : Nat.digits 10 m = [0] := by
      have h1 := congrArg List.reverse h0
      simpa using h1
    have h2 := Nat.ofDigits_digits 10 m
    rw [hdig] at h2
    simp [Nat.ofDigits] at h2
    exact hm h2.symm
  · rw [key m hm, key n hn] at h
    have hdata : (Nat.digits 10 m).reverse.map digitChar =
        (Nat.digits 10 n).reverse.map digitChar := congrArg String.data h
    have hrev := map_digitChar_inj _ _ (digLt m) (digLt n) hdata
    have hdig : Nat.digits 10 m = Nat.digits 10 n :=
      List.reverse_injective hrev
    have h1 := Nat.ofDigits_digits 10 m
    have h2 := Nat.ofDigits_digits 10 n
    rw [hdig] at h1
    exact h1.symm.trans h2

theorem candName_inj (base : String) :
    Function.Injective (Gen.candName base) := by
  intro j k h
  unfold Gen.candName at h
  have hu : ("_" : String).length = 1 := rfl
  by_cases hj : j = 0 <;> by_cases hk : k = 0
  · rw [hj, hk]
  · exfalso
    rw [if_pos hj, if_neg hk] at h
    have hl := congrArg String.length h
    rw [String.length_append, String.length_append, hu] at hl
    omega
  · exfalso
    rw [if_neg hj, if_pos hk] at h
    have hl := congrArg String.length h
    rw [String.length_append, String.length_append, hu] at hl
    omega
  · rw [if_neg hj, if_neg hk] at h
    have hdata := congrArg String.data h
    simp only [String.data_append] at hdata
    rw [List.append_assoc, List.append_assoc] at hdata
    have h2 := List.append_cancel_left hdata
    have h3 := List.append_cancel_left h2
    exact natStr_inj j k (String.ext h3)

theorem candName_startsWith (base : String) (k : Nat) :
    strStartsWith (Gen.candName base k) base = true := by
  unfold Gen.candName strStartsWith
  by_cases hk : k = 0
  · rw [if_pos hk]
    exact List.isPrefixOf_iff_prefix.mpr (List.prefix_refl _)
  · rw [if_neg hk]
    refine List.isPrefixOf_iff_prefix.mpr ?_
    simp only [String.data_append]
    rw [List.append_assoc]
    exact List.prefix_append _ _

theorem exists_cand_not_mem (names : List String) (base : String) :
    ∃ j, j ≤ names.length ∧ Gen.candName base j ∉ names := by
  by_contra hc
  push_neg at hc
  have hnodup : ((List.range (names.length + 1)).map
      (Gen.candName base)).Nodup :=
    List.Nodup.map (candName_inj base) (List.nodup_range _)
  have hsub : ((List.range (names.length + 1)).map
      (Gen.candName base)).toFinset ⊆ names.toFinset := by
    intro x hx
    rw [List.mem_toFinset] at hx ⊢
    obtain ⟨j, hj, rfl⟩ := List.mem_map.mp hx
    exact hc j (Nat.le_of_lt_succ (List.mem_range.mp hj))
  have h1 : ((List.range (names.length + 1)).map
      (Gen.candName base)).toFinset.card = names.length + 1 := by
    rw [List.toFinset_card_of_nodup hnodup, List.length_map,
      List.length_range]
  have h2 := Finset.card_le_card hsub
  have h3 := List.toFinset_card_le names
  omega

theorem freshFrom_not_mem (names : List String) (base : String) :
    ∀ fuel k,
      (∃ j, k ≤ j ∧ j < k + fuel ∧ Gen.candName base j ∉ names) →
      Gen.freshFrom names base k fuel ∉ names := by
  intro fuel
  induction fuel with
  | zero =>
    intro k h
    obtain ⟨j, h1, h2, _⟩ := h
    omega
  | succ f ih =>
    intro k h
    unfold Gen.freshFrom
    by_cases hc : names.contains (Gen.candName base k) = true
    · rw [if_pos hc]
      apply ih
      obtain ⟨j, h1, h2, h3⟩ := h
      have hjk : j ≠ k := by
        intro he
        subst he
        exact h3 (List.elem_iff.mp hc)
      exact ⟨j, by omega, by omega, h3⟩
    · rw [if_neg hc]
      intro hmem
      exact hc (List.elem_iff.mpr hmem)

theorem freshFrom_is_cand (names : List String) (base : String) :
    ∀ fuel k, ∃ j, Gen.freshFrom names base k fuel =
      Gen.candName base j := by
  intro fuel
  induction fuel with
  | zero =>
    intro k
    exact ⟨0, rfl⟩
  | succ f ih =>
    intro k
    unfold Gen.freshFrom
    by_cases hc : names.contains (Gen.candName base k) = true
    · rw [if_pos hc]
      exact ih (k + 1)
    · rw [if_neg hc]
      exact ⟨k, rfl⟩

theorem freshName_not_mem (g : Gen) (base : String) :
    Gen.freshName g base ∉ (g.states.map fun s => s.name) := by
  intro hmem
  have hnot : Gen.freshName g base ∉ g.filteredNames base := by
    apply freshFrom_not_mem
    obtain ⟨j, h1, h2⟩ := exists_cand_not_mem (g.filteredNames base) base
    exact ⟨j, by omega, by omega, h2⟩
  apply hnot
  unfold Gen.filteredNames
  rw [List.mem_map]
  obtain ⟨s, hs, hname⟩ := List.mem_map.mp hmem
  refine ⟨s, ?_, hname⟩
  rw [List.mem_filter]
  refine ⟨hs, ?_⟩
  rw [hname]
  obtain ⟨j0, hj0⟩ := freshFrom_is_cand (g.filteredNames base) base
    ((g.filteredNames base).length + 1) 0
  rw [show Gen.freshName g base = Gen.candName base j0 from hj0]
  exact candName_startsWith base j0

/-- C8 counterexample.  With two commands naming the same callback the
build succeeds yet the emitted state list carries the name
RDY_TO_CALL__ON_X twice: the state names are NOT all unique. -/
theorem C8_counterexample :
    exceptIsOk (buildGen exTreeDupCb) = true ∧
    (((okGenT (buildGen exTreeDupCb)).states.map fun s => s.name).count
      "RDY_TO_CALL__ON_X") = 2 ∧
    ¬ (((okGenT (buildGen exTreeDupCb)).states.map
      fun s => s.name).Nodup) :=
  ⟨by rfl, by rfl, by decide⟩

/-- C8 (amended): `new_state` does resolve collisions — the name it
settles on (the suggested name, else the first free `_1`, `_2`, ...
variant) differs from every already-created state's name, and the new
state is appended bearing exactly that name.  But the
RDY_TO_CALL__CALLBACK terminal states are appended directly with no
uniqueness check at all, so overall name uniqueness fails (two commands
sharing a callback yield two identically named states). -/
theorem C8_state_name_uniqueness (g : Gen) (base : String) (pos : Nat)
    (op : Option Operation) (nm : String) :
    Gen.freshName g base ∉ (g.states.map fun s => s.name) ∧
    ((Gen.newState g base pos).1.states.map fun s => s.name) =
      (g.states.map fun s => s.name) ++ [Gen.freshName g base] ∧
    ((Gen.addOpState g op nm).1.states.map fun s => s.name) =
      (g.states.map fun s => s.name) ++ [nm] := by
  refine ⟨freshName_not_mem g base, ?_, ?_⟩
  · simp [Gen.newState]
  · simp [Gen.addOpState]

end ModbusRC
